import Mathlib

/-!
Verification development for the OpenFPGA bitstream-generation backend.

Shallow embedding of:
* `src/openfpga/src/annotation/append_clock_rr_graph.cpp`
  (clock routing-resource graph augmentation), and
* `src/vpr7_x2p/vpr/SRC/fpga_x2p/verilog/verilog_routing.c`
  (switch-block interconnect resolution and configuration-bit allocation).

External collaborators that are not part of this repository's analysed
sources (the `ClockNetwork` track query, the node lookup, the
`t_sram_orgz_info` snapshot/copy helpers, the per-multiplexer bit-cost
functions, and the passing-wire / opposite-side predicates on blocks) are
modelled as explicit parameters or clearly documented definitions.
Counters and sizes are modelled as `Nat` (they are small non-negative
counts in the C sources); the one place where C computes `x + n - 1` on a
possibly-zero `n` is modelled over `Int` to keep the C semantics.
-/

namespace OpenFPGA

/-! ## Clock network data model (append_clock_rr_graph.cpp) -/

/-- Direction of a clock routing track (`Direction::INC` / `Direction::DEC`). -/
inductive ClkDirection
  | inc
  | dec
deriving DecidableEq, Repr

/-- Routing channel type (`CHANX` / `CHANY`). -/
inductive ChanType
  | chanx
  | chany
deriving DecidableEq, Repr

/-- Pin counts of one level of a clock tree, per channel type and direction.
This reifies `clk_ntwk.pins(itree, ilvl, chan_type, node_dir)` (only the
number of pins matters for the analysed loops). -/
structure ClockLevelPins where
  xInc : Nat
  xDec : Nat
  yInc : Nat
  yDec : Nat
deriving DecidableEq, Repr

/-- Number of pins of a clock level for a channel type and direction. -/
def ClockLevelPins.pins (lp : ClockLevelPins) (ct : ChanType) (d : ClkDirection) : Nat :=
  match ct, d with
  | ChanType.chanx, ClkDirection.inc => lp.xInc
  | ChanType.chanx, ClkDirection.dec => lp.xDec
  | ChanType.chany, ClkDirection.inc => lp.yInc
  | ChanType.chany, ClkDirection.dec => lp.yDec

/-- A clock network: an ordered list of trees, each an ordered list of
levels, plus the default segment id used for cost indices. -/
structure ClockNetwork where
  trees : List (List ClockLevelPins)
  defaultSegment : Nat
deriving DecidableEq, Repr

/-- Modelled from the spec: `ClockNetwork::num_tracks(itree, ilvl, chan_type)`
is not under `src/`.  Per the source comment in
`append_clock_rr_graph.cpp` ("the clock nodes are paired in INC and DEC
directions" and "the number of clock nodes depend on the width of clock
tree") and spec section 4.1 step 2, the tracks a (tree, level) needs in a
channel are its pins in both directions. -/
def ClockNetwork.num_tracks (lp : ClockLevelPins) (ct : ChanType) : Nat :=
  lp.pins ct ClkDirection.inc + lp.pins ct ClkDirection.dec

/-- `estimate_clock_rr_graph_num_chan_nodes` (source lines 26-37): sum of
`num_tracks` over every tree and level for one channel type. -/
def estimate_clock_rr_graph_num_chan_nodes (clk : ClockNetwork) (ct : ChanType) : Nat :=
  clk.trees.foldl
    (fun acc lvls => lvls.foldl (fun a lp => a + ClockNetwork.num_tracks lp ct) acc) 0

/-- The device grid: width, height, and the per-tile channel-existence
predicates `is_chanx_exist` / `is_chany_exist` (external collaborators,
kept abstract as boolean fields). -/
structure DeviceGrid where
  width : Nat
  height : Nat
  chanxExist : Nat → Nat → Bool
  chanyExist : Nat → Nat → Bool

/-- The CHANX tile coordinates scanned by both the estimator and the node
creator (source lines 50-62 and 135-148): `iy` in `[0, height-1)`, `ix` in
`[1, width-1)`, skipping tiles without a channel when through channels are
disabled. -/
def chanxCoords (g : DeviceGrid) (through : Bool) : List (Nat × Nat) :=
  (List.range (g.height - 1)).flatMap fun iy =>
    (List.range' 1 (g.width - 1 - 1)).filterMap fun ix =>
      if through == false && g.chanxExist ix iy == false then none else some (ix, iy)

/-- The CHANY tile coordinates scanned by both the estimator and the node
creator (source lines 64-76 and 151-164). -/
def chanyCoords (g : DeviceGrid) (through : Bool) : List (Nat × Nat) :=
  (List.range (g.width - 1)).flatMap fun ix =>
    (List.range' 1 (g.height - 1 - 1)).filterMap fun iy =>
      if through == false && g.chanyExist ix iy == false then none else some (ix, iy)

/-- `estimate_clock_rr_graph_num_nodes` (source lines 45-79): accumulate
the per-channel-type estimate over every eligible CHANX tile, then every
eligible CHANY tile. -/
def estimate_clock_rr_graph_num_nodes (g : DeviceGrid) (through : Bool)
    (clk : ClockNetwork) : Nat :=
  let afterX := (chanxCoords g through).foldl
    (fun a _ => a + estimate_clock_rr_graph_num_chan_nodes clk ChanType.chanx) 0
  (chanyCoords g through).foldl
    (fun a _ => a + estimate_clock_rr_graph_num_chan_nodes clk ChanType.chany) afterX

/-- A routing-resource-graph node created for the clock network, with the
attributes set by `add_rr_graph_block_clock_nodes`. -/
structure ClockRRNode where
  x : Nat
  y : Nat
  chanType : ChanType
  ptc : Nat
  dir : ClkDirection
  capacity : Nat
  costIndex : Nat
deriving DecidableEq, Repr

/-- The flattened (tree, level, direction, pin) creation sequence of
`add_rr_graph_block_clock_nodes` (source lines 99-121): for every tree and
level, all INC pins then all DEC pins. -/
def tileClockDirs (clk : ClockNetwork) (ct : ChanType) : List ClkDirection :=
  clk.trees.flatMap fun lvls =>
    lvls.flatMap fun lp =>
      List.replicate (lp.pins ct ClkDirection.inc) ClkDirection.inc ++
        List.replicate (lp.pins ct ClkDirection.dec) ClkDirection.dec

/-- The nodes created at one tile: one per entry of the creation sequence,
with `curr_node_ptc` starting at the pre-existing channel width and
incremented after each creation (source lines 97-118). -/
def createTileClockNodes (x y : Nat) (ct : ChanType) (costIndexOffset seg : Nat) :
    List ClkDirection → Nat → List ClockRRNode
  | [], _ => []
  | d :: ds, ptc =>
    ⟨x, y, ct, ptc, d, 1, costIndexOffset + seg⟩ ::
      createTileClockNodes x y ct costIndexOffset seg ds (ptc + 1)

/-- Modelled from the spec: `rr_graph_view.node_lookup().find_channel_nodes`
is not under `src/`; it returns the channel nodes registered at a tile for
a channel type (spec section 2, Spatial Lookup). -/
def findChannelNodes (nodes : List ClockRRNode) (x y : Nat) (ct : ChanType) :
    List ClockRRNode :=
  nodes.filter fun n => n.x == x && n.y == y && n.chanType == ct

/-- The clock nodes created at one tile by `add_rr_graph_block_clock_nodes`:
the creation sequence enumerated with `curr_node_ptc` starting at the
pre-existing channel width of the tile. -/
def add_rr_graph_block_created_nodes (clk : ClockNetwork) (x y : Nat) (ct : ChanType)
    (costIndexOffset : Nat) (nodes : List ClockRRNode) : List ClockRRNode :=
  createTileClockNodes x y ct costIndexOffset clk.defaultSegment
    (tileClockDirs clk ct) (findChannelNodes nodes x y ct).length

/-- `add_rr_graph_block_clock_nodes` (source lines 86-122): read the
original channel width at the tile, then append the created clock nodes to
the graph. -/
def add_rr_graph_block_clock_nodes (clk : ClockNetwork) (x y : Nat) (ct : ChanType)
    (costIndexOffset : Nat) (nodes : List ClockRRNode) : List ClockRRNode :=
  nodes ++ add_rr_graph_block_created_nodes clk x y ct costIndexOffset nodes

/-- `add_rr_graph_clock_nodes` (source lines 128-165): add clock nodes for
every eligible CHANX tile (cost offset `CHANX_COST_INDEX_START`), then for
every eligible CHANY tile (offset shifted by the segment count). -/
def add_rr_graph_clock_nodes (g : DeviceGrid) (through : Bool) (clk : ClockNetwork)
    (chanxCostIndexStart numRRSegments : Nat) (nodes0 : List ClockRRNode) :
    List ClockRRNode :=
  let afterX := (chanxCoords g through).foldl
    (fun ns c => add_rr_graph_block_clock_nodes clk c.1 c.2 ChanType.chanx
      chanxCostIndexStart ns) nodes0
  (chanyCoords g through).foldl
    (fun ns c => add_rr_graph_block_clock_nodes clk c.1 c.2 ChanType.chany
      (chanxCostIndexStart + numRRSegments) ns) afterX

/-- Return status of `append_clock_rr_graph`
(`CMD_EXEC_SUCCESS` / `CMD_EXEC_FATAL_ERROR`). -/
inductive CmdExecStatus
  | success
  | fatalError
deriving DecidableEq, Repr

/-- `append_clock_rr_graph` (source lines 292-347), control flow and node
creation.  The result carries the status, whether the function proceeded
past the tree-count guards to augment the graph, and the final node list.
The first guard is embedded exactly as written in the source
(`if (clk_ntwk.num_trees())`, line 299), i.e. it fires whenever the tree
count is nonzero. -/
def append_clock_rr_graph (g : DeviceGrid) (through : Bool) (clk : ClockNetwork)
    (chanxCostIndexStart numRRSegments : Nat) (nodes : List ClockRRNode) :
    CmdExecStatus × Bool × List ClockRRNode :=
  if clk.trees.length ≠ 0 then
    (CmdExecStatus.success, false, nodes)
  else if clk.trees.length > 1 then
    (CmdExecStatus.fatalError, false, nodes)
  else
    (CmdExecStatus.success, true,
      add_rr_graph_clock_nodes g through clk chanxCostIndexStart numRRSegments nodes)

/-! ## Switch-block data model (verilog_routing.c) -/

/-- Direction tag of a channel node inside a block (`IN_PORT` / `OUT_PORT`).
The source's `default:` abort branches on this enum are unreachable by
construction here, as the spec's design notes themselves recommend. -/
inductive PortDir
  | inPort
  | outPort
deriving DecidableEq, Repr

/-- One channel node of a switch block, with the fields the analysed code
reads.  `storedDrivers` is `num_drive_rr_nodes`, `switchId` is
`drive_switches[0]`, `segId` the segment id, `dir` the side-local
direction tag.  The three booleans record the results of the external
block predicates applied to this node: `oppositeSide` is
`is_sb_node_exist_opposite_side` (equivalently
`is_rr_node_exist_opposite_side_in_sb_info`), `passingWire` is
`is_sb_node_passing_wire`, and `implyShort` is
`check_drive_rr_node_imply_short`; none of these predicates is defined
under `src/`, so they are carried as node attributes. -/
structure ChanNode where
  storedDrivers : Nat
  switchId : Nat
  segId : Nat
  dir : PortDir
  oppositeSide : Bool
  passingWire : Bool
  implyShort : Bool
deriving DecidableEq, Repr

/-- An `RRGSB` switch block: its side-indexed channel node lists. -/
structure RRGSB where
  sides : List (List ChanNode)
deriving DecidableEq, Repr

/-- A `t_sb` switch block: its side-indexed channel node lists and the
optional mirror pointer (`cur_sb_info->mirror`, of which only the mirror's
channel structure is read by the analysed code). -/
structure TSB where
  sides : List (List ChanNode)
  mirror : Option (List (List ChanNode))
deriving DecidableEq, Repr

/-- The process-wide configuration counter state of `t_sram_orgz_info`:
total memory bits, bit-line count and word-line count. -/
structure SramOrgzInfo where
  numMemBit : Nat
  numBl : Nat
  numWl : Nat
deriving DecidableEq, Repr

/-- The per-block configuration record written by the allocation code:
reserved-bit count, `conf_bits_lsb` and `conf_bits_msb`.  `confBitsMsb` is
an `Int` because the C code computes `cur_num_sram + num_conf_bits - 1`
with `int` arithmetic, which is `-1` when both are zero. -/
structure SBConfRecord where
  numReservedConfBits : Nat
  confBitsLsb : Nat
  confBitsMsb : Int
deriving DecidableEq, Repr

/-- Configuration-memory design technology
(`SPICE_MODEL_DESIGN_CMOS` / `SPICE_MODEL_DESIGN_RRAM`). -/
inductive DesignTech
  | cmos
  | rram
deriving DecidableEq, Repr

/-- What one call of a switch-box interconnect dump emits to the netlist:
a self-loop short connection, a single-driver short connection, a
multiplexer instance, or nothing at all (the early return of the
deduplicated backend). -/
inductive SBInterc
  | selfLoop
  | short
  | mux
  | skipped
deriving DecidableEq, Repr

/-! Throughout, `bitCost sw n` abstracts
`count_num_conf_bits_one_spice_model(switch_inf[sw].spice_model, type, n)`
and `rsvCost sw n` abstracts
`count_num_reserved_conf_bits_one_spice_model(...)`; both live outside
`src/` and are deterministic in the switch model and fan-in, so they are
passed as function parameters. -/

/-- `count_verilog_switch_box_interc_conf_bits` (source lines 1703-1737):
zero drivers are forced when the node exists on the opposite side; fewer
than two drivers need no configuration bits; otherwise the multiplexer
bit cost of the first drive switch at the fan-in. -/
def count_verilog_switch_box_interc_conf_bits (bitCost : Nat → Nat → Nat)
    (t : ChanNode) : Nat :=
  let numDrive := if t.oppositeSide then 0 else t.storedDrivers
  if numDrive < 2 then 0 else bitCost t.switchId numDrive

/-- `count_verilog_switch_box_interc_reserved_conf_bits`
(source lines 1778-1812): same shape with the reserved-bit cost. -/
def count_verilog_switch_box_interc_reserved_conf_bits (rsvCost : Nat → Nat → Nat)
    (t : ChanNode) : Nat :=
  let numDrive := if t.oppositeSide then 0 else t.storedDrivers
  if numDrive < 2 then 0 else rsvCost t.switchId numDrive

/-- Modelled from the spec: `RRChan::get_segment_ids` is not under `src/`;
it lists the distinct segment ids present among a side's channel nodes. -/
def get_segment_ids (ts : List ChanNode) : List Nat :=
  (ts.map ChanNode.segId).dedup

/-- `count_verilog_switch_box_side_conf_bits` (source lines 2047-2074):
sum the per-node counts of the OUT_PORT nodes of one side that carry the
given segment id. -/
def count_verilog_switch_box_side_conf_bits (bitCost : Nat → Nat → Nat)
    (ts : List ChanNode) (segId : Nat) : Nat :=
  ts.foldl
    (fun acc t =>
      if t.segId ≠ segId then acc
      else
        match t.dir with
        | PortDir.outPort => acc + count_verilog_switch_box_interc_conf_bits bitCost t
        | PortDir.inPort => acc) 0

/-- `count_verilog_switch_box_conf_bits` for `RRGSB`
(source lines 2078-2092): sum the per-side, per-segment counts. -/
def count_verilog_switch_box_conf_bits (bitCost : Nat → Nat → Nat) (sb : RRGSB) : Nat :=
  sb.sides.foldl
    (fun acc ts =>
      (get_segment_ids ts).foldl
        (fun a seg => a + count_verilog_switch_box_side_conf_bits bitCost ts seg) acc) 0

/-- `count_verilog_switch_box_side_reserved_conf_bits`
(source lines 1963-1993): running maximum, over the OUT_PORT nodes of one
side carrying the given segment id, of the per-node reserved counts. -/
def count_verilog_switch_box_side_reserved_conf_bits (rsvCost : Nat → Nat → Nat)
    (ts : List ChanNode) (segId : Nat) : Nat :=
  ts.foldl
    (fun acc t =>
      if t.segId ≠ segId then acc
      else
        match t.dir with
        | PortDir.outPort =>
          Nat.max acc (count_verilog_switch_box_interc_reserved_conf_bits rsvCost t)
        | PortDir.inPort => acc) 0

/-- `count_verilog_switch_box_reserved_conf_bits` for `RRGSB`
(source lines 1998-2015): maximum of the per-side, per-segment maxima. -/
def count_verilog_switch_box_reserved_conf_bits (rsvCost : Nat → Nat → Nat)
    (sb : RRGSB) : Nat :=
  sb.sides.foldl
    (fun acc ts =>
      (get_segment_ids ts).foldl
        (fun a seg =>
          Nat.max a (count_verilog_switch_box_side_reserved_conf_bits rsvCost ts seg)) acc) 0

/-- `count_verilog_switch_box_conf_bits` for `t_sb`
(source lines 2020-2043): sum the per-node counts of all OUT_PORT channel
nodes over all sides. -/
def count_verilog_switch_box_conf_bits_sb_info (bitCost : Nat → Nat → Nat)
    (sides : List (List ChanNode)) : Nat :=
  sides.foldl
    (fun acc ts =>
      ts.foldl
        (fun a t =>
          match t.dir with
          | PortDir.outPort => a + count_verilog_switch_box_interc_conf_bits bitCost t
          | PortDir.inPort => a) acc) 0

/-- `count_verilog_switch_box_reserved_conf_bits` for `t_sb`
(source lines 1930-1959): running maximum over all OUT_PORT channel nodes. -/
def count_verilog_switch_box_reserved_conf_bits_sb_info (rsvCost : Nat → Nat → Nat)
    (sides : List (List ChanNode)) : Nat :=
  sides.foldl
    (fun acc ts =>
      ts.foldl
        (fun a t =>
          match t.dir with
          | PortDir.outPort =>
            Nat.max a (count_verilog_switch_box_interc_reserved_conf_bits rsvCost t)
          | PortDir.inPort => a) acc) 0

/-- Counter effect of `dump_verilog_switch_box_mux` and
`dump_verilog_unique_switch_box_mux` (source lines 1361-1389 and the
mirrored lines of the unique variant): both technologies advance the
memory-bit counter by the multiplexer's bit cost; RRAM additionally
advances the bit-line and word-line counters by the same amount. -/
def dump_verilog_switch_box_mux_counter (bitCost : Nat → Nat → Nat) (tech : DesignTech)
    (switchId muxSize : Nat) (s : SramOrgzInfo) : SramOrgzInfo :=
  let curNumSram := s.numMemBit
  let numMuxConfBits := bitCost switchId muxSize
  match tech with
  | DesignTech.cmos => ⟨curNumSram + numMuxConfBits, s.numBl, s.numWl⟩
  | DesignTech.rram =>
    ⟨curNumSram + numMuxConfBits, s.numBl + numMuxConfBits, s.numWl + numMuxConfBits⟩

/-- `dump_verilog_switch_box_interc` (source lines 1814-1870): the
non-deduplicated backend.  The effective driver count is zero when
`check_drive_rr_node_imply_short` holds, else the stored driver count;
zero emits the self-loop short connection, one emits a short connection,
two or more emit a multiplexer (which consumes configuration bits). -/
def dump_verilog_switch_box_interc (bitCost : Nat → Nat → Nat) (tech : DesignTech)
    (t : ChanNode) (s : SramOrgzInfo) : SBInterc × SramOrgzInfo :=
  let numDrive := if t.implyShort then 0 else t.storedDrivers
  if numDrive = 0 then (SBInterc.selfLoop, s)
  else if numDrive = 1 then (SBInterc.short, s)
  else (SBInterc.mux, dump_verilog_switch_box_mux_counter bitCost tech t.switchId numDrive s)

/-- `dump_verilog_unique_switch_box_interc` (source lines 1873-1925): the
reduced-duplication backend.  A passing wire gets the self-loop short
connection; otherwise the stored driver count decides, except that a
zero-driver node returns early and emits nothing (source lines 1900-1903). -/
def dump_verilog_unique_switch_box_interc (bitCost : Nat → Nat → Nat) (tech : DesignTech)
    (t : ChanNode) (s : SramOrgzInfo) : SBInterc × SramOrgzInfo :=
  if t.passingWire then (SBInterc.selfLoop, s)
  else if t.storedDrivers = 0 then (SBInterc.skipped, s)
  else if t.storedDrivers = 1 then (SBInterc.short, s)
  else
    (SBInterc.mux,
      dump_verilog_switch_box_mux_counter bitCost tech t.switchId t.storedDrivers s)

/-- `update_routing_switch_box_conf_bits` (source lines 2094-2120): count
the block's bits, record `[cur_num_sram, cur_num_sram + num_conf_bits - 1]`
and the reserved count, then advance the memory-bit, bit-line and
word-line counters by `num_conf_bits`. -/
def update_routing_switch_box_conf_bits (bitCost rsvCost : Nat → Nat → Nat)
    (s : SramOrgzInfo) (sb : RRGSB) : SramOrgzInfo × SBConfRecord :=
  let curNumBl := s.numBl
  let curNumWl := s.numWl
  let numConfBits := count_verilog_switch_box_conf_bits bitCost sb
  let numReserved := count_verilog_switch_box_reserved_conf_bits rsvCost sb
  let curNumSram := s.numMemBit
  (⟨curNumSram + numConfBits, curNumBl + numConfBits, curNumWl + numConfBits⟩,
    ⟨numReserved, curNumSram, (curNumSram : Int) + (numConfBits : Int) - 1⟩)

/-- The per-instance allocation pass of the compact flow (source lines
4577-4583): visit the blocks in device-scan order, allocating each with
`update_routing_switch_box_conf_bits` and collecting the records. -/
def update_routing_switch_boxes (bitCost rsvCost : Nat → Nat → Nat)
    (s : SramOrgzInfo) : List RRGSB → SramOrgzInfo × List SBConfRecord
  | [] => (s, [])
  | sb :: rest =>
    let step := update_routing_switch_box_conf_bits bitCost rsvCost s sb
    let tail := update_routing_switch_boxes bitCost rsvCost step.1 rest
    (tail.1, step.2 :: tail.2)

/-- `dump_verilog_routing_switch_box_unique_subckt`
(source lines 2792-2936), restricted to its counter behaviour: pre-count
the block, record `[cur_num_sram, cur_num_sram + num_conf_bits - 1]`, emit
every OUT_PORT channel node through
`dump_verilog_unique_switch_box_interc`, and check the closing assertion
`esti_sram_cnt == get_sram_orgz_info_num_mem_bit(...)` (line 2924); a
failed assertion is a fatal abort, modelled as `Except.error`. -/
def dump_verilog_routing_switch_box_unique_subckt (bitCost rsvCost : Nat → Nat → Nat)
    (tech : DesignTech) (sb : RRGSB) (s : SramOrgzInfo) :
    Except Unit (SramOrgzInfo × SBConfRecord) :=
  let numConfBits := count_verilog_switch_box_conf_bits bitCost sb
  let numReserved := count_verilog_switch_box_reserved_conf_bits rsvCost sb
  let curNumSram := s.numMemBit
  let estiSramCnt := curNumSram + numConfBits
  let record : SBConfRecord :=
    ⟨numReserved, curNumSram, (curNumSram : Int) + (numConfBits : Int) - 1⟩
  let sFinal := sb.sides.foldl
    (fun st ts =>
      ts.foldl
        (fun st2 t =>
          match t.dir with
          | PortDir.outPort => (dump_verilog_unique_switch_box_interc bitCost tech t st2).2
          | PortDir.inPort => st2) st) s
  if sFinal.numMemBit = estiSramCnt then Except.ok (sFinal, record)
  else Except.error ()

/-- `dump_verilog_routing_switch_box_subckt` (source lines 2973-3134),
restricted to its counter behaviour.  It records `conf_bits_lsb =
cur_num_sram` and `conf_bits_msb = cur_num_sram + num_conf_bits`
(line 3000, an exclusive upper bound with no `- 1`).  Under the compact
hierarchy with a mirror, it recounts the mirror, asserts the counts agree
(line 3011, fatal on mismatch) and sets the counter to `conf_bits_msb`;
otherwise it emits every OUT_PORT channel node through
`dump_verilog_switch_box_interc` and checks the closing assertion
`esti_sram_cnt == ...` (line 3123). -/
def dump_verilog_routing_switch_box_subckt (bitCost rsvCost : Nat → Nat → Nat)
    (tech : DesignTech) (compactRoutingHierarchy : Bool) (sb : TSB) (s : SramOrgzInfo) :
    Except Unit (SramOrgzInfo × SBConfRecord) :=
  let numConfBits := count_verilog_switch_box_conf_bits_sb_info bitCost sb.sides
  let numReserved := count_verilog_switch_box_reserved_conf_bits_sb_info rsvCost sb.sides
  let curNumSram := s.numMemBit
  let estiSramCnt := curNumSram + numConfBits
  let record : SBConfRecord :=
    ⟨numReserved, curNumSram, ((curNumSram + numConfBits : Nat) : Int)⟩
  let emitPath : Unit → Except Unit (SramOrgzInfo × SBConfRecord) := fun _ =>
    let sFinal := sb.sides.foldl
      (fun st ts =>
        ts.foldl
          (fun st2 t =>
            match t.dir with
            | PortDir.outPort => (dump_verilog_switch_box_interc bitCost tech t st2).2
            | PortDir.inPort => st2) st) s
    if sFinal.numMemBit = estiSramCnt then Except.ok (sFinal, record)
    else Except.error ()
  if compactRoutingHierarchy then
    match sb.mirror with
    | some mirror =>
      let mirrorNumConfBits := count_verilog_switch_box_conf_bits_sb_info bitCost mirror
      if mirrorNumConfBits = numConfBits then
        Except.ok (⟨curNumSram + numConfBits, s.numBl, s.numWl⟩, record)
      else Except.error ()
    | none => emitPath ()
  else emitPath ()

/-- Modelled from the spec: `snapshot_sram_orgz_info` and
`copy_sram_orgz_info` are not under `src/`; per spec sections 3 and 5 they
are bit-for-bit value copies of the counter state, which on an immutable
value is the identity. -/
def snapshot_sram_orgz_info (s : SramOrgzInfo) : SramOrgzInfo := s

/-- The switch-box section of `print_verilog_routing_resources` in the
compact-routing flow (source lines 4558-4585): snapshot the counter, size
and emit every unique module against the live counter, restore the counter
from the snapshot, then run the per-instance allocation pass in device
scan order.  The result carries the restored state (the state at the start
of the per-instance pass), the final state and the records. -/
def print_verilog_routing_switch_boxes_compact (bitCost rsvCost : Nat → Nat → Nat)
    (tech : DesignTech) (uniqueModules : List RRGSB) (gsbScan : List RRGSB)
    (s0 : SramOrgzInfo) :
    Except Unit (SramOrgzInfo × SramOrgzInfo × List SBConfRecord) := do
  let stamped := snapshot_sram_orgz_info s0
  let _sized ← uniqueModules.foldlM
    (fun st u =>
      (dump_verilog_routing_switch_box_unique_subckt bitCost rsvCost tech u st).map
        Prod.fst) s0
  let restored := stamped
  let result := update_routing_switch_boxes bitCost rsvCost restored gsbScan
  return (restored, result.1, result.2)

/-- The effective fan-in used by the non-deduplicated backend
(`num_drive_rr_nodes` as computed at source lines 1840-1848). -/
def effectiveFaninSB (t : ChanNode) : Nat :=
  if t.implyShort then 0 else t.storedDrivers

/-- The effective fan-in used by the reduced-duplication backend
(`num_drive_rr_nodes` as computed at source lines 1894-1904). -/
def effectiveFaninUnique (t : ChanNode) : Nat :=
  if t.passingWire then 0 else t.storedDrivers

/-- Maximum of a list of naturals (0 for the empty list). -/
def maxList (l : List Nat) : Nat :=
  l.foldl Nat.max 0

/-- Per-node configuration-bit contribution of a channel node as summed by
the block-level counting loops: the interconnect count for OUT_PORT nodes,
zero for IN_PORT nodes. -/
def outConfContrib (bitCost : Nat → Nat → Nat) (t : ChanNode) : Nat :=
  match t.dir with
  | PortDir.outPort => count_verilog_switch_box_interc_conf_bits bitCost t
  | PortDir.inPort => 0

/-- Per-node reserved-bit contribution of a channel node as maximised by
the block-level counting loops. -/
def outRsvContrib (rsvCost : Nat → Nat → Nat) (t : ChanNode) : Nat :=
  match t.dir with
  | PortDir.outPort => count_verilog_switch_box_interc_reserved_conf_bits rsvCost t
  | PortDir.inPort => 0

/-- Total configuration-bit contribution of one side's channel nodes. -/
def sideConfSum (bitCost : Nat → Nat → Nat) (ts : List ChanNode) : Nat :=
  (ts.map (outConfContrib bitCost)).sum

/-- Specification-side definition for the reserved-bit claim: the maximum,
over all output-direction channel nodes of the block, of the per-node
reserved-bit requirement.  Stated from the spec's words to be compared
with `count_verilog_switch_box_reserved_conf_bits`. -/
def sb_reserved_conf_bits_spec (rsvCost : Nat → Nat → Nat) (sb : RRGSB) : Nat :=
  maxList
    ((((sb.sides.flatMap fun ts => ts).filter fun t => t.dir == PortDir.outPort).map
      (count_verilog_switch_box_interc_reserved_conf_bits rsvCost)))

/-! ## Generic fold lemmas -/

theorem list_foldl_add_sum {β : Type _} (g : β → Nat) :
    ∀ (l : List β) (a : Nat), l.foldl (fun acc x => acc + g x) a = a + (l.map g).sum := by
  intro l
  induction l with
  | nil => intro a; simp
  | cons x l ih =>
    intro a
    simp only [List.foldl_cons, List.map_cons, List.sum_cons]
    rw [ih]
    omega

theorem list_foldl_const_add {β : Type _} (K : Nat) :
    ∀ (l : List β) (a : Nat), l.foldl (fun acc _ => acc + K) a = a + l.length * K := by
  intro l
  induction l with
  | nil => intro a; simp
  | cons x l ih =>
    intro a
    simp only [List.foldl_cons, List.length_cons]
    rw [ih]
    ring

theorem list_foldl_nat_max :
    ∀ (l : List Nat) (a : Nat), l.foldl Nat.max a = Nat.max a (maxList l) := by
  intro l
  induction l with
  | nil => intro a; simp [maxList]
  | cons x l ih =>
    intro a
    simp only [maxList, List.foldl_cons]
    rw [ih (Nat.max a x), ih (Nat.max 0 x)]
    simp [Nat.max_assoc]

theorem maxList_cons (x : Nat) (l : List Nat) :
    maxList (x :: l) = Nat.max x (maxList l) := by
  simp only [maxList, List.foldl_cons]
  rw [list_foldl_nat_max]
  simp [maxList, Nat.zero_max]

theorem maxList_le {b : Nat} : ∀ {l : List Nat}, (∀ x ∈ l, x ≤ b) → maxList l ≤ b := by
  intro l
  induction l with
  | nil => intro _; simp [maxList]
  | cons x l ih =>
    intro h
    rw [maxList_cons]
    exact Nat.max_le.mpr ⟨h x (by simp), ih fun y hy => h y (by simp [hy])⟩

/-! ## Clock graph lemmas and claim theorems -/

theorem createTileClockNodes_length (x y : Nat) (ct : ChanType) (off seg : Nat) :
    ∀ (ds : List ClkDirection) (ptc : Nat),
      (createTileClockNodes x y ct off seg ds ptc).length = ds.length := by
  intro ds
  induction ds with
  | nil => intro ptc; rfl
  | cons d ds ih => intro ptc; simp [createTileClockNodes, ih]

theorem createTileClockNodes_map_ptc (x y : Nat) (ct : ChanType) (off seg : Nat) :
    ∀ (ds : List ClkDirection) (ptc : Nat),
      (createTileClockNodes x y ct off seg ds ptc).map ClockRRNode.ptc =
        List.range' ptc ds.length := by
  intro ds
  induction ds with
  | nil => intro ptc; rfl
  | cons d ds ih =>
    intro ptc
    simp only [createTileClockNodes, List.map_cons, List.length_cons, List.range'_succ]
    rw [ih]

theorem range'_pairwise_lt : ∀ (n s : Nat), (List.range' s n).Pairwise (· < ·) := by
  intro n
  induction n with
  | zero => intro s; simp
  | succ n ih =>
    intro s
    rw [List.range'_succ]
    refine List.Pairwise.cons ?_ (ih (s + 1))
    intro y hy
    have := (List.mem_range'_1.mp hy).1
    omega

theorem nested_foldl_add_sum {γ : Type _} (g : γ → Nat) :
    ∀ (l : List (List γ)) (a : Nat),
      l.foldl (fun acc xs => xs.foldl (fun a2 x => a2 + g x) acc) a =
        a + (l.map fun xs => (xs.map g).sum).sum := by
  intro l
  induction l with
  | nil => intro a; simp
  | cons xs l ih =>
    intro a
    simp only [List.foldl_cons, List.map_cons, List.sum_cons]
    rw [list_foldl_add_sum, ih]
    omega

theorem estimate_chan_nodes_eq_sum (clk : ClockNetwork) (ct : ChanType) :
    estimate_clock_rr_graph_num_chan_nodes clk ct =
      (clk.trees.map fun lvls =>
        (lvls.map fun lp => ClockNetwork.num_tracks lp ct).sum).sum := by
  unfold estimate_clock_rr_graph_num_chan_nodes
  rw [nested_foldl_add_sum]
  simp

theorem tileClockDirs_length (clk : ClockNetwork) (ct : ChanType) :
    (tileClockDirs clk ct).length = estimate_clock_rr_graph_num_chan_nodes clk ct := by
  rw [estimate_chan_nodes_eq_sum]
  unfold tileClockDirs
  rw [List.length_flatMap]
  refine congrArg List.sum (List.map_congr_left ?_)
  intro lvls _
  simp only [Function.comp]
  rw [List.length_flatMap]
  refine congrArg List.sum (List.map_congr_left ?_)
  intro lp _
  simp [ClockNetwork.num_tracks, ClockLevelPins.pins]

theorem add_rr_graph_block_created_nodes_length (clk : ClockNetwork) (x y : Nat)
    (ct : ChanType) (off : Nat) (nodes : List ClockRRNode) :
    (add_rr_graph_block_created_nodes clk x y ct off nodes).length =
      estimate_clock_rr_graph_num_chan_nodes clk ct := by
  unfold add_rr_graph_block_created_nodes
  rw [createTileClockNodes_length, tileClockDirs_length]

theorem add_block_clock_nodes_length (clk : ClockNetwork) (x y : Nat) (ct : ChanType)
    (off : Nat) (nodes : List ClockRRNode) :
    (add_rr_graph_block_clock_nodes clk x y ct off nodes).length =
      nodes.length + estimate_clock_rr_graph_num_chan_nodes clk ct := by
  unfold add_rr_graph_block_clock_nodes
  rw [List.length_append, add_rr_graph_block_created_nodes_length]

theorem foldl_add_block_length (clk : ClockNetwork) (ct : ChanType) (off : Nat) :
    ∀ (coords : List (Nat × Nat)) (ns : List ClockRRNode),
      ((coords.foldl
          (fun ns c => add_rr_graph_block_clock_nodes clk c.1 c.2 ct off ns) ns).length) =
        ns.length + coords.length * estimate_clock_rr_graph_num_chan_nodes clk ct := by
  intro coords
  induction coords with
  | nil => intro ns; simp
  | cons c coords ih =>
    intro ns
    simp only [List.foldl_cons, List.length_cons]
    rw [ih, add_block_clock_nodes_length]
    ring

/-- Claim C5: the number of clock nodes created by `add_rr_graph_clock_nodes`
equals the value returned by `estimate_clock_rr_graph_num_nodes` on the same
device grid, through-channel flag and clock network, so the node count after
creation is the original count plus the estimate. -/
theorem clock_nodes_created_eq_estimate (g : DeviceGrid) (through : Bool)
    (clk : ClockNetwork) (ccis nseg : Nat) (nodes : List ClockRRNode) :
    (add_rr_graph_clock_nodes g through clk ccis nseg nodes).length =
      nodes.length + estimate_clock_rr_graph_num_nodes g through clk := by
  unfold add_rr_graph_clock_nodes estimate_clock_rr_graph_num_nodes
  rw [foldl_add_block_length, foldl_add_block_length,
    list_foldl_const_add, list_foldl_const_add]
  ring

/-- Claim C4 (code evaluation): `append_clock_rr_graph` with two clock trees
returns `CMD_EXEC_SUCCESS` without augmenting the graph (the zero-tree skip
guard at source line 299 fires for every nonzero tree count, so the fatal
branch for multiple trees is unreachable); with one tree it also skips; with
zero trees it proceeds to augment the graph. -/
theorem append_clock_rr_graph_guard_eval :
    (append_clock_rr_graph ⟨3, 3, fun _ _ => true, fun _ _ => true⟩ true
        ⟨[[⟨1, 1, 1, 1⟩], [⟨1, 1, 1, 1⟩]], 0⟩ 0 0 []).1 = CmdExecStatus.success ∧
    (append_clock_rr_graph ⟨3, 3, fun _ _ => true, fun _ _ => true⟩ true
        ⟨[[⟨1, 1, 1, 1⟩], [⟨1, 1, 1, 1⟩]], 0⟩ 0 0 []).2.1 = false ∧
    (append_clock_rr_graph ⟨3, 3, fun _ _ => true, fun _ _ => true⟩ true
        ⟨[[⟨1, 1, 1, 1⟩]], 0⟩ 0 0 []).1 = CmdExecStatus.success ∧
    (append_clock_rr_graph ⟨3, 3, fun _ _ => true, fun _ _ => true⟩ true
        ⟨[[⟨1, 1, 1, 1⟩]], 0⟩ 0 0 []).2.1 = false ∧
    (append_clock_rr_graph ⟨3, 3, fun _ _ => true, fun _ _ => true⟩ true
        ⟨[], 0⟩ 0 0 []).1 = CmdExecStatus.success ∧
    (append_clock_rr_graph ⟨3, 3, fun _ _ => true, fun _ _ => true⟩ true
        ⟨[], 0⟩ 0 0 []).2.1 = true := by
  refine ⟨rfl, rfl, rfl, rfl, rfl, rfl⟩

/-- Claim C9: within one tile and channel type, the clock nodes created by
`add_rr_graph_block_clock_nodes` receive exactly the track indices
`width, width+1, ...` continuing from the pre-existing channel width, hence
strictly increasing; and provided every pre-existing channel node of the
tile has a track index below the channel width, no created node shares a
track index with a pre-existing node. -/
theorem clock_node_track_indices_fresh (clk : ClockNetwork) (x y : Nat) (ct : ChanType)
    (off : Nat) (nodes : List ClockRRNode) :
    ((add_rr_graph_block_created_nodes clk x y ct off nodes).map ClockRRNode.ptc =
        List.range' (findChannelNodes nodes x y ct).length (tileClockDirs clk ct).length) ∧
    ((add_rr_graph_block_created_nodes clk x y ct off nodes).map ClockRRNode.ptc).Pairwise
        (· < ·) ∧
    ((∀ e ∈ findChannelNodes nodes x y ct, e.ptc < (findChannelNodes nodes x y ct).length) →
      ∀ c ∈ add_rr_graph_block_created_nodes clk x y ct off nodes,
        ∀ e ∈ findChannelNodes nodes x y ct, c.ptc ≠ e.ptc) := by
  have hmap : (add_rr_graph_block_created_nodes clk x y ct off nodes).map ClockRRNode.ptc =
      List.range' (findChannelNodes nodes x y ct).length (tileClockDirs clk ct).length := by
    unfold add_rr_graph_block_created_nodes
    exact createTileClockNodes_map_ptc x y ct off clk.defaultSegment _ _
  refine ⟨hmap, ?_, ?_⟩
  · rw [hmap]; exact range'_pairwise_lt _ _
  · intro hlt c hc e he
    have hcp : c.ptc ∈ (add_rr_graph_block_created_nodes clk x y ct off nodes).map
        ClockRRNode.ptc := List.mem_map_of_mem ClockRRNode.ptc hc
    rw [hmap] at hcp
    have hge := (List.mem_range'_1.mp hcp).1
    have := hlt e he
    omega

/-- Witness for C9 at a concrete tile: one pre-existing channel node of
track index 0 and a one-tree, one-level clock network; the created nodes'
track indices avoid the pre-existing one. -/
theorem clock_node_track_indices_fresh_witness :
    (∀ e ∈ findChannelNodes [⟨1, 1, ChanType.chanx, 0, ClkDirection.inc, 1, 0⟩] 1 1
        ChanType.chanx,
      e.ptc < (findChannelNodes [⟨1, 1, ChanType.chanx, 0, ClkDirection.inc, 1, 0⟩] 1 1
        ChanType.chanx).length) ∧
    (∀ c ∈ add_rr_graph_block_created_nodes ⟨[[⟨1, 1, 1, 1⟩]], 0⟩ 1 1 ChanType.chanx 0
        [⟨1, 1, ChanType.chanx, 0, ClkDirection.inc, 1, 0⟩],
      ∀ e ∈ findChannelNodes [⟨1, 1, ChanType.chanx, 0, ClkDirection.inc, 1, 0⟩] 1 1
        ChanType.chanx, c.ptc ≠ e.ptc) := by
  have h : ∀ e ∈ findChannelNodes [⟨1, 1, ChanType.chanx, 0, ClkDirection.inc, 1, 0⟩] 1 1
      ChanType.chanx,
      e.ptc < (findChannelNodes [⟨1, 1, ChanType.chanx, 0, ClkDirection.inc, 1, 0⟩] 1 1
        ChanType.chanx).length := by decide
  exact ⟨h, (clock_node_track_indices_fresh ⟨[[⟨1, 1, 1, 1⟩]], 0⟩ 1 1 ChanType.chanx 0
    [⟨1, 1, ChanType.chanx, 0, ClkDirection.inc, 1, 0⟩]).2.2 h⟩

/-! ## Sum and maximum partition lemmas for the per-segment counting loops -/

theorem sum_map_add {β : Type _} (f g : β → Nat) :
    ∀ l : List β, (l.map fun x => f x + g x).sum = (l.map f).sum + (l.map g).sum := by
  intro l
  induction l with
  | nil => simp
  | cons x l ih => simp only [List.map_cons, List.sum_cons]; omega

theorem sum_ite_not_mem (v : Nat) (k : Nat) :
    ∀ keys : List Nat, k ∉ keys → (keys.map fun s => if k = s then v else 0).sum = 0 := by
  intro keys
  induction keys with
  | nil => intro _; simp
  | cons s keys ih =>
    intro h
    have hks : k ≠ s := fun he => h (by simp [he])
    have hm : k ∉ keys := fun hin => h (by simp [hin])
    simp [hks, ih hm]

theorem sum_ite_mem (v : Nat) (k : Nat) :
    ∀ keys : List Nat, keys.Nodup → k ∈ keys →
      (keys.map fun s => if k = s then v else 0).sum = v := by
  intro keys
  induction keys with
  | nil => intro _ h; simp at h
  | cons s keys ih =>
    intro hnd hmem
    rcases List.nodup_cons.mp hnd with ⟨hs, hnd2⟩
    by_cases hks : k = s
    · subst hks
      simp [sum_ite_not_mem v k keys hs]
    · have hk2 : k ∈ keys := by
        rcases List.mem_cons.mp hmem with h | h
        · exact absurd h hks
        · exact h
      simp [hks, ih hnd2 hk2]

theorem sum_partition_by_seg (g : ChanNode → Nat) (keys : List Nat) (hnd : keys.Nodup) :
    ∀ ts : List ChanNode, (∀ t ∈ ts, t.segId ∈ keys) →
      (keys.map fun seg => (ts.map fun t => if t.segId = seg then g t else 0).sum).sum =
        (ts.map g).sum := by
  intro ts
  induction ts with
  | nil => intro _; simp
  | cons t ts ih =>
    intro hcov
    have hhead : t.segId ∈ keys := hcov t (by simp)
    have htail : ∀ u ∈ ts, u.segId ∈ keys := fun u hu => hcov u (by simp [hu])
    calc (keys.map fun seg =>
            ((t :: ts).map fun u => if u.segId = seg then g u else 0).sum).sum
        = (keys.map fun seg => (if t.segId = seg then g t else 0) +
            (ts.map fun u => if u.segId = seg then g u else 0).sum).sum := by
          simp only [List.map_cons, List.sum_cons]
      _ = (keys.map fun seg => if t.segId = seg then g t else 0).sum +
            (keys.map fun seg => (ts.map fun u => if u.segId = seg then g u else 0).sum).sum := by
          rw [sum_map_add]
      _ = g t + (ts.map g).sum := by rw [sum_ite_mem _ _ keys hnd hhead, ih htail]
      _ = ((t :: ts).map g).sum := by simp

theorem maxList_map_zero {β : Type _} :
    ∀ l : List β, maxList (l.map fun _ => 0) = 0 := by
  intro l
  induction l with
  | nil => simp [maxList]
  | cons x l ih => simp only [List.map_cons]; rw [maxList_cons, ih]; simp

theorem nat_max_exchange (a b c d : Nat) :
    Nat.max (Nat.max a b) (Nat.max c d) = Nat.max (Nat.max a c) (Nat.max b d) := by
  apply Nat.le_antisymm
  · refine Nat.max_le.mpr ⟨Nat.max_le.mpr ⟨?_, ?_⟩, Nat.max_le.mpr ⟨?_, ?_⟩⟩
    · exact Nat.le_trans (Nat.le_max_left a c) (Nat.le_max_left _ _)
    · exact Nat.le_trans (Nat.le_max_left b d) (Nat.le_max_right _ _)
    · exact Nat.le_trans (Nat.le_max_right a c) (Nat.le_max_left _ _)
    · exact Nat.le_trans (Nat.le_max_right b d) (Nat.le_max_right _ _)
  · refine Nat.max_le.mpr ⟨Nat.max_le.mpr ⟨?_, ?_⟩, Nat.max_le.mpr ⟨?_, ?_⟩⟩
    · exact Nat.le_trans (Nat.le_max_left a b) (Nat.le_max_left _ _)
    · exact Nat.le_trans (Nat.le_max_left c d) (Nat.le_max_right _ _)
    · exact Nat.le_trans (Nat.le_max_right a b) (Nat.le_max_left _ _)
    · exact Nat.le_trans (Nat.le_max_right c d) (Nat.le_max_right _ _)

theorem maxList_map_max_split (p q : Nat → Nat) :
    ∀ keys : List Nat,
      maxList (keys.map fun s => Nat.max (p s) (q s)) =
        Nat.max (maxList (keys.map p)) (maxList (keys.map q)) := by
  intro keys
  induction keys with
  | nil => simp [maxList]
  | cons s keys ih =>
    simp only [List.map_cons]
    rw [maxList_cons, maxList_cons, maxList_cons, ih, nat_max_exchange]

theorem maxList_ite_mem (v : Nat) (k : Nat) :
    ∀ keys : List Nat, k ∈ keys →
      maxList (keys.map fun s => if k = s then v else 0) = v := by
  intro keys
  induction keys with
  | nil => intro h; simp at h
  | cons s keys ih =>
    intro hmem
    simp only [List.map_cons]
    rw [maxList_cons]
    by_cases hks : k = s
    · subst hks
      have hb : maxList (keys.map fun s => if k = s then v else 0) ≤ v := by
        refine maxList_le ?_
        intro x hx
        rcases List.mem_map.mp hx with ⟨s2, _, hval⟩
        by_cases h2 : k = s2 <;> simp [h2] at hval <;> omega
      rw [if_pos rfl]
      exact Nat.max_eq_left hb
    · have hk2 : k ∈ keys := by
        rcases List.mem_cons.mp hmem with h | h
        · exact absurd h hks
        · exact h
      rw [if_neg hks, ih hk2]
      exact Nat.zero_max v

theorem max_partition_by_seg (g : ChanNode → Nat) (keys : List Nat) :
    ∀ ts : List ChanNode, (∀ t ∈ ts, t.segId ∈ keys) →
      maxList (keys.map fun seg =>
          maxList (ts.map fun t => if t.segId = seg then g t else 0)) =
        maxList (ts.map g) := by
  intro ts
  induction ts with
  | nil =>
    intro _
    simp only [List.map_nil]
    have hz : (keys.map fun _ : Nat => maxList ([] : List Nat)) =
        keys.map fun _ : Nat => (0 : Nat) := rfl
    rw [hz, maxList_map_zero]
    rfl
  | cons t ts ih =>
    intro hcov
    have hhead : t.segId ∈ keys := hcov t (by simp)
    have htail : ∀ u ∈ ts, u.segId ∈ keys := fun u hu => hcov u (by simp [hu])
    have hrows : keys.map (fun seg =>
          maxList ((t :: ts).map fun u => if u.segId = seg then g u else 0)) =
        keys.map (fun seg => Nat.max (if t.segId = seg then g t else 0)
          (maxList (ts.map fun u => if u.segId = seg then g u else 0))) := by
      refine List.map_congr_left ?_
      intro seg _
      simp only [List.map_cons]
      rw [maxList_cons]
    rw [hrows, maxList_map_max_split, maxList_ite_mem _ _ keys hhead, ih htail]
    simp only [List.map_cons]
    rw [maxList_cons]

/-! ## Normal forms of the switch-box counting functions -/

theorem side_conf_bits_eq_sum (bitCost : Nat → Nat → Nat) (seg : Nat) :
    ∀ ts : List ChanNode,
      count_verilog_switch_box_side_conf_bits bitCost ts seg =
        (ts.map fun t => if t.segId = seg then outConfContrib bitCost t else 0).sum := by
  have aux : ∀ (ts : List ChanNode) (a : Nat),
      ts.foldl
        (fun acc t =>
          if t.segId ≠ seg then acc
          else
            match t.dir with
            | PortDir.outPort => acc + count_verilog_switch_box_interc_conf_bits bitCost t
            | PortDir.inPort => acc) a =
      a + (ts.map fun t => if t.segId = seg then outConfContrib bitCost t else 0).sum := by
    intro ts
    induction ts with
    | nil => intro a; simp
    | cons t ts ih =>
      intro a
      simp only [List.foldl_cons, List.map_cons, List.sum_cons]
      have hstep : (if t.segId ≠ seg then a
          else
            match t.dir with
            | PortDir.outPort => a + count_verilog_switch_box_interc_conf_bits bitCost t
            | PortDir.inPort => a) =
          a + (if t.segId = seg then outConfContrib bitCost t else 0) := by
        by_cases hseg : t.segId = seg
        · cases htd : t.dir <;> simp [hseg, htd, outConfContrib]
        · simp [hseg]
      rw [hstep, ih]
      omega
  intro ts
  unfold count_verilog_switch_box_side_conf_bits
  rw [aux]
  omega

theorem count_conf_bits_rrgsb_eq_sum (bitCost : Nat → Nat → Nat) (sb : RRGSB) :
    count_verilog_switch_box_conf_bits bitCost sb =
      (sb.sides.map (sideConfSum bitCost)).sum := by
  have hside : ∀ ts : List ChanNode,
      (get_segment_ids ts).foldl
        (fun a seg => a + count_verilog_switch_box_side_conf_bits bitCost ts seg) =
        fun a => a + sideConfSum bitCost ts := by
    intro ts
    funext a
    rw [list_foldl_add_sum]
    have hmapped : (get_segment_ids ts).map
          (count_verilog_switch_box_side_conf_bits bitCost ts) =
        (get_segment_ids ts).map fun seg =>
          (ts.map fun t => if t.segId = seg then outConfContrib bitCost t else 0).sum := by
      refine List.map_congr_left ?_
      intro seg _
      exact side_conf_bits_eq_sum bitCost seg ts
    rw [hmapped, sum_partition_by_seg (outConfContrib bitCost) (get_segment_ids ts)
      (List.nodup_dedup _) ts ?_]
    · rfl
    · intro t ht
      exact List.mem_dedup.mpr (List.mem_map_of_mem ChanNode.segId ht)
  have aux : ∀ (sides : List (List ChanNode)) (a : Nat),
      sides.foldl
        (fun acc ts =>
          (get_segment_ids ts).foldl
            (fun a seg => a + count_verilog_switch_box_side_conf_bits bitCost ts seg) acc) a =
      a + (sides.map (sideConfSum bitCost)).sum := by
    intro sides
    induction sides with
    | nil => intro a; simp
    | cons ts sides ih =>
      intro a
      simp only [List.foldl_cons, List.map_cons, List.sum_cons]
      rw [show (get_segment_ids ts).foldl
          (fun a seg => a + count_verilog_switch_box_side_conf_bits bitCost ts seg) a =
          a + sideConfSum bitCost ts from congrFun (hside ts) a]
      rw [ih]
      omega
  unfold count_verilog_switch_box_conf_bits
  rw [aux]
  omega

theorem count_conf_bits_sb_info_eq_sum (bitCost : Nat → Nat → Nat)
    (sides : List (List ChanNode)) :
    count_verilog_switch_box_conf_bits_sb_info bitCost sides =
      (sides.map (sideConfSum bitCost)).sum := by
  have hinner : ∀ (ts : List ChanNode) (a : Nat),
      ts.foldl
        (fun a2 t =>
          match t.dir with
          | PortDir.outPort => a2 + count_verilog_switch_box_interc_conf_bits bitCost t
          | PortDir.inPort => a2) a = a + sideConfSum bitCost ts := by
    intro ts
    induction ts with
    | nil => intro a; simp [sideConfSum]
    | cons t ts ih =>
      intro a
      simp only [List.foldl_cons, sideConfSum, List.map_cons, List.sum_cons]
      have hstep : (match t.dir with
          | PortDir.outPort => a + count_verilog_switch_box_interc_conf_bits bitCost t
          | PortDir.inPort => a) = a + outConfContrib bitCost t := by
        cases htd : t.dir <;> simp [outConfContrib, htd]
      rw [hstep, ih]
      simp only [sideConfSum]
      omega
  have aux : ∀ (sides : List (List ChanNode)) (a : Nat),
      sides.foldl
        (fun acc ts =>
          ts.foldl
            (fun a2 t =>
              match t.dir with
              | PortDir.outPort => a2 + count_verilog_switch_box_interc_conf_bits bitCost t
              | PortDir.inPort => a2) acc) a =
      a + (sides.map (sideConfSum bitCost)).sum := by
    intro sides
    induction sides with
    | nil => intro a; simp
    | cons ts sides ih =>
      intro a
      simp only [List.foldl_cons, List.map_cons, List.sum_cons]
      rw [hinner, ih]
      omega
  unfold count_verilog_switch_box_conf_bits_sb_info
  rw [aux]
  omega

theorem nat_max_assoc (a b c : Nat) :
    Nat.max (Nat.max a b) c = Nat.max a (Nat.max b c) := by
  apply Nat.le_antisymm
  · refine Nat.max_le.mpr ⟨Nat.max_le.mpr ⟨?_, ?_⟩, ?_⟩
    · exact Nat.le_max_left a (Nat.max b c)
    · exact Nat.le_trans (Nat.le_max_left b c) (Nat.le_max_right a _)
    · exact Nat.le_trans (Nat.le_max_right b c) (Nat.le_max_right a _)
  · refine Nat.max_le.mpr ⟨?_, Nat.max_le.mpr ⟨?_, ?_⟩⟩
    · exact Nat.le_trans (Nat.le_max_left a b) (Nat.le_max_left _ c)
    · exact Nat.le_trans (Nat.le_max_right a b) (Nat.le_max_left _ c)
    · exact Nat.le_max_right (Nat.max a b) c

theorem nat_zero_max (a : Nat) : Nat.max 0 a = a :=
  Nat.zero_max a

theorem nat_max_zero (a : Nat) : Nat.max a 0 = a :=
  Nat.max_zero a

theorem list_foldl_max_map {β : Type _} (g : β → Nat) :
    ∀ (l : List β) (a : Nat),
      l.foldl (fun acc x => Nat.max acc (g x)) a = Nat.max a (maxList (l.map g)) := by
  intro l
  induction l with
  | nil => intro a; simp [maxList]
  | cons x l ih =>
    intro a
    simp only [List.foldl_cons, List.map_cons]
    rw [ih, maxList_cons, nat_max_assoc]

theorem side_reserved_conf_bits_eq_maxList (rsvCost : Nat → Nat → Nat) (seg : Nat) :
    ∀ ts : List ChanNode,
      count_verilog_switch_box_side_reserved_conf_bits rsvCost ts seg =
        maxList (ts.map fun t => if t.segId = seg then outRsvContrib rsvCost t else 0) := by
  have aux : ∀ (ts : List ChanNode) (a : Nat),
      ts.foldl
        (fun acc t =>
          if t.segId ≠ seg then acc
          else
            match t.dir with
            | PortDir.outPort =>
              Nat.max acc (count_verilog_switch_box_interc_reserved_conf_bits rsvCost t)
            | PortDir.inPort => acc) a =
      Nat.max a (maxList (ts.map fun t => if t.segId = seg then outRsvContrib rsvCost t
        else 0)) := by
    intro ts
    induction ts with
    | nil => intro a; simp [maxList]
    | cons t ts ih =>
      intro a
      simp only [List.foldl_cons, List.map_cons]
      have hstep : (if t.segId ≠ seg then a
          else
            match t.dir with
            | PortDir.outPort =>
              Nat.max a (count_verilog_switch_box_interc_reserved_conf_bits rsvCost t)
            | PortDir.inPort => a) =
          Nat.max a (if t.segId = seg then outRsvContrib rsvCost t else 0) := by
        by_cases hseg : t.segId = seg
        · cases htd : t.dir <;> simp [hseg, htd, outRsvContrib, Nat.max_zero]
        · simp [hseg, Nat.max_zero]
      rw [hstep, ih, maxList_cons, nat_max_assoc]
  intro ts
  unfold count_verilog_switch_box_side_reserved_conf_bits
  rw [aux]
  exact Nat.zero_max _

theorem count_reserved_rrgsb_eq_max (rsvCost : Nat → Nat → Nat) (sb : RRGSB) :
    count_verilog_switch_box_reserved_conf_bits rsvCost sb =
      maxList (sb.sides.map fun ts => maxList (ts.map (outRsvContrib rsvCost))) := by
  have hside : ∀ (ts : List ChanNode) (a : Nat),
      (get_segment_ids ts).foldl
        (fun a seg =>
          Nat.max a (count_verilog_switch_box_side_reserved_conf_bits rsvCost ts seg)) a =
      Nat.max a (maxList (ts.map (outRsvContrib rsvCost))) := by
    intro ts a
    rw [list_foldl_max_map]
    have hmapped : (get_segment_ids ts).map
          (count_verilog_switch_box_side_reserved_conf_bits rsvCost ts) =
        (get_segment_ids ts).map fun seg =>
          maxList (ts.map fun t => if t.segId = seg then outRsvContrib rsvCost t else 0) := by
      refine List.map_congr_left ?_
      intro seg _
      exact side_reserved_conf_bits_eq_maxList rsvCost seg ts
    rw [hmapped, max_partition_by_seg (outRsvContrib rsvCost) (get_segment_ids ts) ts ?_]
    intro t ht
    exact List.mem_dedup.mpr (List.mem_map_of_mem ChanNode.segId ht)
  have aux : ∀ (sides : List (List ChanNode)) (a : Nat),
      sides.foldl
        (fun acc ts =>
          (get_segment_ids ts).foldl
            (fun a seg =>
              Nat.max a (count_verilog_switch_box_side_reserved_conf_bits rsvCost ts seg))
            acc) a =
      Nat.max a (maxList (sides.map fun ts => maxList (ts.map (outRsvContrib rsvCost)))) := by
    intro sides
    induction sides with
    | nil => intro a; simp [maxList]
    | cons ts sides ih =>
      intro a
      simp only [List.foldl_cons, List.map_cons]
      rw [hside, ih, maxList_cons, nat_max_assoc]
  unfold count_verilog_switch_box_reserved_conf_bits
  rw [aux]
  exact Nat.zero_max _

theorem maxList_append (l1 l2 : List Nat) :
    maxList (l1 ++ l2) = Nat.max (maxList l1) (maxList l2) := by
  simp only [maxList, List.foldl_append]
  rw [list_foldl_nat_max]
  rfl

theorem maxList_flat (f : ChanNode → Nat) :
    ∀ sides : List (List ChanNode),
      maxList (sides.map fun ts => maxList (ts.map f)) =
        maxList ((sides.flatMap fun ts => ts).map f) := by
  intro sides
  induction sides with
  | nil => rfl
  | cons ts sides ih =>
    simp only [List.map_cons, List.flatMap_cons, List.map_append]
    rw [maxList_cons, maxList_append, ih]

theorem maxList_filter_outPort (rsvCost : Nat → Nat → Nat) :
    ∀ l : List ChanNode,
      maxList (l.map (outRsvContrib rsvCost)) =
        maxList ((l.filter fun t => t.dir == PortDir.outPort).map
          (count_verilog_switch_box_interc_reserved_conf_bits rsvCost)) := by
  intro l
  induction l with
  | nil => rfl
  | cons t l ih =>
    cases htd : t.dir
    · have hfil : List.filter (fun u => u.dir == PortDir.outPort) (t :: l) =
          List.filter (fun u => u.dir == PortDir.outPort) l := by
        simp [List.filter_cons, htd]
      have hhead : outRsvContrib rsvCost t = 0 := by simp [outRsvContrib, htd]
      rw [hfil, List.map_cons, maxList_cons, hhead, nat_zero_max, ih]
    · have hfil : List.filter (fun u => u.dir == PortDir.outPort) (t :: l) =
          t :: List.filter (fun u => u.dir == PortDir.outPort) l := by
        simp [List.filter_cons, htd]
      have hhead : outRsvContrib rsvCost t =
          count_verilog_switch_box_interc_reserved_conf_bits rsvCost t := by
        simp [outRsvContrib, htd]
      rw [hfil, List.map_cons, List.map_cons, maxList_cons, maxList_cons, hhead, ih]

/-- Claim C6: the reserved configuration-bit count of an `RRGSB` switch block
computed by `count_verilog_switch_box_reserved_conf_bits` equals the maximum
(not the sum), over all its output-direction channel nodes, of the per-node
reserved-bit requirement. -/
theorem switch_box_reserved_conf_bits_is_max (rsvCost : Nat → Nat → Nat) (sb : RRGSB) :
    count_verilog_switch_box_reserved_conf_bits rsvCost sb =
      sb_reserved_conf_bits_spec rsvCost sb := by
  rw [count_reserved_rrgsb_eq_max, maxList_flat, maxList_filter_outPort]
  rfl

/-! ## Emission lemmas: counter consumption of the interconnect dumps -/

theorem unique_interc_mem_bit (bitCost : Nat → Nat → Nat) (tech : DesignTech)
    (t : ChanNode) (s : SramOrgzInfo) :
    ((dump_verilog_unique_switch_box_interc bitCost tech t s).2).numMemBit =
      s.numMemBit + (if t.passingWire then 0 else if t.storedDrivers < 2 then 0
        else bitCost t.switchId t.storedDrivers) := by
  unfold dump_verilog_unique_switch_box_interc dump_verilog_switch_box_mux_counter
  by_cases hp : t.passingWire
  · simp [hp]
  · by_cases h0 : t.storedDrivers = 0
    · simp [hp, h0]
    · by_cases h1 : t.storedDrivers = 1
      · simp [hp, h0, h1]
      · have hlt : ¬ t.storedDrivers < 2 := by omega
        cases tech <;> simp [hp, h0, h1, hlt]

theorem sb_interc_mem_bit (bitCost : Nat → Nat → Nat) (tech : DesignTech)
    (t : ChanNode) (s : SramOrgzInfo) :
    ((dump_verilog_switch_box_interc bitCost tech t s).2).numMemBit =
      s.numMemBit + (if t.implyShort then 0 else if t.storedDrivers < 2 then 0
        else bitCost t.switchId t.storedDrivers) := by
  unfold dump_verilog_switch_box_interc dump_verilog_switch_box_mux_counter
  by_cases hp : t.implyShort
  · simp [hp]
  · by_cases h0 : t.storedDrivers = 0
    · simp [hp, h0]
    · by_cases h1 : t.storedDrivers = 1
      · simp [hp, h0, h1]
      · have hlt : ¬ t.storedDrivers < 2 := by omega
        cases tech <;> simp [hp, h0, h1, hlt]

theorem unique_interc_consume_eq_count (bitCost : Nat → Nat → Nat) (tech : DesignTech)
    (t : ChanNode) (s : SramOrgzInfo) (hpo : t.passingWire = t.oppositeSide) :
    ((dump_verilog_unique_switch_box_interc bitCost tech t s).2).numMemBit =
      s.numMemBit + count_verilog_switch_box_interc_conf_bits bitCost t := by
  rw [unique_interc_mem_bit]
  cases hb : t.oppositeSide
  · have hp2 : t.passingWire = false := hpo.trans hb
    simp [hp2, hb, count_verilog_switch_box_interc_conf_bits]
  · have hp2 : t.passingWire = true := hpo.trans hb
    simp [hp2, hb, count_verilog_switch_box_interc_conf_bits]

theorem sb_interc_consume_eq_count (bitCost : Nat → Nat → Nat) (tech : DesignTech)
    (t : ChanNode) (s : SramOrgzInfo) (hio : t.implyShort = t.oppositeSide) :
    ((dump_verilog_switch_box_interc bitCost tech t s).2).numMemBit =
      s.numMemBit + count_verilog_switch_box_interc_conf_bits bitCost t := by
  rw [sb_interc_mem_bit]
  cases hb : t.oppositeSide
  · have hp2 : t.implyShort = false := hio.trans hb
    simp [hp2, hb, count_verilog_switch_box_interc_conf_bits]
  · have hp2 : t.implyShort = true := hio.trans hb
    simp [hp2, hb, count_verilog_switch_box_interc_conf_bits]

theorem emit_fold_unique_mem_bit (bitCost : Nat → Nat → Nat) (tech : DesignTech) :
    ∀ ts : List ChanNode, (∀ t ∈ ts, t.passingWire = t.oppositeSide) →
      ∀ s : SramOrgzInfo,
        (ts.foldl
          (fun st2 t =>
            match t.dir with
            | PortDir.outPort => (dump_verilog_unique_switch_box_interc bitCost tech t st2).2
            | PortDir.inPort => st2) s).numMemBit = s.numMemBit + sideConfSum bitCost ts := by
  intro ts
  induction ts with
  | nil => intro _ s; simp [sideConfSum]
  | cons t ts ih =>
    intro h s
    have hh : t.passingWire = t.oppositeSide := h t (by simp)
    have ht : ∀ u ∈ ts, u.passingWire = u.oppositeSide := fun u hu => h u (by simp [hu])
    simp only [List.foldl_cons, sideConfSum, List.map_cons, List.sum_cons]
    rw [ih ht]
    simp only [sideConfSum]
    cases htd : t.dir
    · simp only [outConfContrib, htd]
      omega
    · rw [unique_interc_consume_eq_count bitCost tech t s hh]
      simp only [outConfContrib, htd]
      omega

theorem emit_fold_sb_mem_bit (bitCost : Nat → Nat → Nat) (tech : DesignTech) :
    ∀ ts : List ChanNode, (∀ t ∈ ts, t.implyShort = t.oppositeSide) →
      ∀ s : SramOrgzInfo,
        (ts.foldl
          (fun st2 t =>
            match t.dir with
            | PortDir.outPort => (dump_verilog_switch_box_interc bitCost tech t st2).2
            | PortDir.inPort => st2) s).numMemBit = s.numMemBit + sideConfSum bitCost ts := by
  intro ts
  induction ts with
  | nil => intro _ s; simp [sideConfSum]
  | cons t ts ih =>
    intro h s
    have hh : t.implyShort = t.oppositeSide := h t (by simp)
    have ht : ∀ u ∈ ts, u.implyShort = u.oppositeSide := fun u hu => h u (by simp [hu])
    simp only [List.foldl_cons, sideConfSum, List.map_cons, List.sum_cons]
    rw [ih ht]
    simp only [sideConfSum]
    cases htd : t.dir
    · simp only [outConfContrib, htd]
      omega
    · rw [sb_interc_consume_eq_count bitCost tech t s hh]
      simp only [outConfContrib, htd]
      omega

theorem emit_block_unique_mem_bit (bitCost : Nat → Nat → Nat) (tech : DesignTech) :
    ∀ sides : List (List ChanNode),
      (∀ ts ∈ sides, ∀ t ∈ ts, t.passingWire = t.oppositeSide) →
      ∀ s : SramOrgzInfo,
        (sides.foldl
          (fun st ts =>
            ts.foldl
              (fun st2 t =>
                match t.dir with
                | PortDir.outPort =>
                  (dump_verilog_unique_switch_box_interc bitCost tech t st2).2
                | PortDir.inPort => st2) st) s).numMemBit =
          s.numMemBit + (sides.map (sideConfSum bitCost)).sum := by
  intro sides
  induction sides with
  | nil => intro _ s; simp
  | cons ts sides ih =>
    intro h s
    have hh : ∀ t ∈ ts, t.passingWire = t.oppositeSide := h ts (by simp)
    have ht : ∀ us ∈ sides, ∀ t ∈ us, t.passingWire = t.oppositeSide :=
      fun us hus => h us (by simp [hus])
    simp only [List.foldl_cons, List.map_cons, List.sum_cons]
    rw [ih ht, emit_fold_unique_mem_bit bitCost tech ts hh s]
    omega

theorem emit_block_sb_mem_bit (bitCost : Nat → Nat → Nat) (tech : DesignTech) :
    ∀ sides : List (List ChanNode),
      (∀ ts ∈ sides, ∀ t ∈ ts, t.implyShort = t.oppositeSide) →
      ∀ s : SramOrgzInfo,
        (sides.foldl
          (fun st ts =>
            ts.foldl
              (fun st2 t =>
                match t.dir with
                | PortDir.outPort => (dump_verilog_switch_box_interc bitCost tech t st2).2
                | PortDir.inPort => st2) st) s).numMemBit =
          s.numMemBit + (sides.map (sideConfSum bitCost)).sum := by
  intro sides
  induction sides with
  | nil => intro _ s; simp
  | cons ts sides ih =>
    intro h s
    have hh : ∀ t ∈ ts, t.implyShort = t.oppositeSide := h ts (by simp)
    have ht : ∀ us ∈ sides, ∀ t ∈ us, t.implyShort = t.oppositeSide :=
      fun us hus => h us (by simp [hus])
    simp only [List.foldl_cons, List.map_cons, List.sum_cons]
    rw [ih ht, emit_fold_sb_mem_bit bitCost tech ts hh s]
    omega

/-! ## Claim theorems: interconnect classification and emission -/

/-- Claim C3 (amended): the non-deduplicated backend
`dump_verilog_switch_box_interc` always emits exactly one of self-loop,
short or multiplexer, and a multiplexer exactly when the effective driver
count is at least 2; the reduced-duplication backend
`dump_verilog_unique_switch_box_interc` does the same except for a
non-passing-wire node with zero stored drivers, which emits nothing. -/
theorem switch_box_interc_emission_cases (bitCost : Nat → Nat → Nat) (tech : DesignTech)
    (t : ChanNode) (s : SramOrgzInfo) :
    ((dump_verilog_switch_box_interc bitCost tech t s).1 = SBInterc.selfLoop ∨
      (dump_verilog_switch_box_interc bitCost tech t s).1 = SBInterc.short ∨
      (dump_verilog_switch_box_interc bitCost tech t s).1 = SBInterc.mux) ∧
    ((dump_verilog_switch_box_interc bitCost tech t s).1 = SBInterc.mux ↔
      2 ≤ effectiveFaninSB t) ∧
    ((dump_verilog_unique_switch_box_interc bitCost tech t s).1 = SBInterc.skipped ↔
      (t.passingWire = false ∧ t.storedDrivers = 0)) ∧
    ((t.passingWire = true ∨ 1 ≤ t.storedDrivers) →
      ((dump_verilog_unique_switch_box_interc bitCost tech t s).1 = SBInterc.selfLoop ∨
        (dump_verilog_unique_switch_box_interc bitCost tech t s).1 = SBInterc.short ∨
        (dump_verilog_unique_switch_box_interc bitCost tech t s).1 = SBInterc.mux) ∧
      ((dump_verilog_unique_switch_box_interc bitCost tech t s).1 = SBInterc.mux ↔
        2 ≤ effectiveFaninUnique t)) := by
  unfold dump_verilog_switch_box_interc dump_verilog_unique_switch_box_interc
    effectiveFaninSB effectiveFaninUnique
  by_cases hp : t.passingWire <;> by_cases hi : t.implyShort <;>
    by_cases h0 : t.storedDrivers = 0 <;> by_cases h1 : t.storedDrivers = 1 <;>
      simp [hp, hi, h0, h1] <;> omega

/-- Witness for C3 at a concrete multiplexer node (two stored drivers, not a
passing wire): both backends emit a multiplexer. -/
theorem switch_box_interc_emission_cases_witness :
    ((dump_verilog_switch_box_interc (fun _ n => n) DesignTech.cmos
        ⟨2, 0, 0, PortDir.outPort, false, false, false⟩ ⟨0, 0, 0⟩).1 = SBInterc.mux ↔
      2 ≤ effectiveFaninSB ⟨2, 0, 0, PortDir.outPort, false, false, false⟩) ∧
    ((dump_verilog_unique_switch_box_interc (fun _ n => n) DesignTech.cmos
        ⟨2, 0, 0, PortDir.outPort, false, false, false⟩ ⟨0, 0, 0⟩).1 = SBInterc.selfLoop ∨
      (dump_verilog_unique_switch_box_interc (fun _ n => n) DesignTech.cmos
        ⟨2, 0, 0, PortDir.outPort, false, false, false⟩ ⟨0, 0, 0⟩).1 = SBInterc.short ∨
      (dump_verilog_unique_switch_box_interc (fun _ n => n) DesignTech.cmos
        ⟨2, 0, 0, PortDir.outPort, false, false, false⟩ ⟨0, 0, 0⟩).1 = SBInterc.mux) := by
  have h := switch_box_interc_emission_cases (fun _ n => n) DesignTech.cmos
    ⟨2, 0, 0, PortDir.outPort, false, false, false⟩ ⟨0, 0, 0⟩
  exact ⟨h.2.1, (h.2.2.2 (Or.inr (by decide))).1⟩

/-- Counterexample to C3 as stated: an output-direction channel node with
zero stored drivers that is not a passing wire is processed by the
reduced-duplication backend but none of the three connection kinds is
emitted for it (the function returns after emitting nothing). -/
theorem switch_box_interc_emission_cases_counterexample :
    (dump_verilog_unique_switch_box_interc (fun _ n => n) DesignTech.cmos
        ⟨0, 0, 0, PortDir.outPort, false, false, false⟩ ⟨0, 0, 0⟩).1 = SBInterc.skipped ∧
    ¬ ((dump_verilog_unique_switch_box_interc (fun _ n => n) DesignTech.cmos
        ⟨0, 0, 0, PortDir.outPort, false, false, false⟩ ⟨0, 0, 0⟩).1 = SBInterc.selfLoop ∨
      (dump_verilog_unique_switch_box_interc (fun _ n => n) DesignTech.cmos
        ⟨0, 0, 0, PortDir.outPort, false, false, false⟩ ⟨0, 0, 0⟩).1 = SBInterc.short ∨
      (dump_verilog_unique_switch_box_interc (fun _ n => n) DesignTech.cmos
        ⟨0, 0, 0, PortDir.outPort, false, false, false⟩ ⟨0, 0, 0⟩).1 = SBInterc.mux) := by
  decide

/-- Claim C7 (amended): when the external block predicates agree on a node
(the passing-wire test and the driver-implies-short test both coincide with
the opposite-side test), the bit-counting path and both emission backends
consume the same number of configuration bits for the node, and the two
backends emit the same connection kind for every node that is a passing
wire or has at least one stored driver. -/
theorem classification_paths_agreement (bitCost : Nat → Nat → Nat) (tech : DesignTech)
    (t : ChanNode) (s : SramOrgzInfo) (hpo : t.passingWire = t.oppositeSide)
    (hio : t.implyShort = t.oppositeSide) :
    (((dump_verilog_unique_switch_box_interc bitCost tech t s).2).numMemBit =
      s.numMemBit + count_verilog_switch_box_interc_conf_bits bitCost t) ∧
    (((dump_verilog_switch_box_interc bitCost tech t s).2).numMemBit =
      s.numMemBit + count_verilog_switch_box_interc_conf_bits bitCost t) ∧
    ((t.passingWire = true ∨ 1 ≤ t.storedDrivers) →
      (dump_verilog_switch_box_interc bitCost tech t s).1 =
        (dump_verilog_unique_switch_box_interc bitCost tech t s).1) := by
  refine ⟨unique_interc_consume_eq_count bitCost tech t s hpo,
    sb_interc_consume_eq_count bitCost tech t s hio, ?_⟩
  intro hcase
  unfold dump_verilog_switch_box_interc dump_verilog_unique_switch_box_interc
  cases hb : t.oppositeSide
  · have hp2 : t.passingWire = false := hpo.trans hb
    have hi2 : t.implyShort = false := hio.trans hb
    have h1 : 1 ≤ t.storedDrivers := by
      rcases hcase with h | h
      · rw [hp2] at h; cases h
      · exact h
    by_cases h1e : t.storedDrivers = 1
    · simp [hp2, hi2, h1e]
    · have h0 : ¬ t.storedDrivers = 0 := by omega
      simp [hp2, hi2, h0, h1e]
  · have hp2 : t.passingWire = true := hpo.trans hb
    have hi2 : t.implyShort = true := hio.trans hb
    simp [hp2, hi2]

/-- Witness for C7 at a concrete node: a fan-in 3 multiplexer node with all
three predicates false consumes the counted 3 bits in both backends and both
emit a multiplexer. -/
theorem classification_paths_agreement_witness :
    (((dump_verilog_unique_switch_box_interc (fun _ n => n) DesignTech.cmos
        ⟨3, 0, 0, PortDir.outPort, false, false, false⟩ ⟨5, 0, 0⟩).2).numMemBit =
      5 + count_verilog_switch_box_interc_conf_bits (fun _ n => n)
        ⟨3, 0, 0, PortDir.outPort, false, false, false⟩) ∧
    ((dump_verilog_switch_box_interc (fun _ n => n) DesignTech.cmos
        ⟨3, 0, 0, PortDir.outPort, false, false, false⟩ ⟨5, 0, 0⟩).1 =
      (dump_verilog_unique_switch_box_interc (fun _ n => n) DesignTech.cmos
        ⟨3, 0, 0, PortDir.outPort, false, false, false⟩ ⟨5, 0, 0⟩).1) := by
  have h := classification_paths_agreement (fun _ n => n) DesignTech.cmos
    ⟨3, 0, 0, PortDir.outPort, false, false, false⟩ ⟨5, 0, 0⟩ rfl rfl
  exact ⟨h.1, h.2.2 (Or.inr (by decide))⟩

/-- Counterexample to C7 as stated: on a non-passing node with zero stored
drivers the three external predicates agree, yet the stored-driver path
(the non-deduplicated backend) classifies the node as a self-loop while the
reduced-duplication backend emits nothing, so the two paths do not yield
the same connection kind. -/
theorem classification_paths_agreement_counterexample :
    (dump_verilog_switch_box_interc (fun _ n => n) DesignTech.cmos
        ⟨0, 0, 0, PortDir.outPort, false, false, false⟩ ⟨0, 0, 0⟩).1 = SBInterc.selfLoop ∧
    (dump_verilog_unique_switch_box_interc (fun _ n => n) DesignTech.cmos
        ⟨0, 0, 0, PortDir.outPort, false, false, false⟩ ⟨0, 0, 0⟩).1 = SBInterc.skipped ∧
    (dump_verilog_switch_box_interc (fun _ n => n) DesignTech.cmos
        ⟨0, 0, 0, PortDir.outPort, false, false, false⟩ ⟨0, 0, 0⟩).1 ≠
      (dump_verilog_unique_switch_box_interc (fun _ n => n) DesignTech.cmos
        ⟨0, 0, 0, PortDir.outPort, false, false, false⟩ ⟨0, 0, 0⟩).1 := by
  decide

/-- Claim C10: switch-block netlist emission consumes exactly the
pre-counted number of configuration bits, so the closing assertions
comparing the estimated and actual counter values hold and both
block-emission functions return successfully, with the counter advanced by
exactly the block's counted bits.  The hypotheses record that the external
block predicates (passing-wire, driver-implies-short, opposite-side) agree
on every node, which the spec states as an invariant of the block
abstraction. -/
theorem switch_box_emission_consumes_counted_bits :
    (∀ (bitCost rsvCost : Nat → Nat → Nat) (tech : DesignTech) (sb : RRGSB)
        (s : SramOrgzInfo),
      (∀ ts ∈ sb.sides, ∀ t ∈ ts, t.passingWire = t.oppositeSide) →
      ∃ p, dump_verilog_routing_switch_box_unique_subckt bitCost rsvCost tech sb s =
          Except.ok p ∧
        p.1.numMemBit = s.numMemBit + count_verilog_switch_box_conf_bits bitCost sb) ∧
    (∀ (bitCost rsvCost : Nat → Nat → Nat) (tech : DesignTech)
        (sides : List (List ChanNode)) (mir : Option (List (List ChanNode)))
        (s : SramOrgzInfo),
      (∀ ts ∈ sides, ∀ t ∈ ts, t.implyShort = t.oppositeSide) →
      ∃ p, dump_verilog_routing_switch_box_subckt bitCost rsvCost tech false
          ⟨sides, mir⟩ s = Except.ok p ∧
        p.1.numMemBit =
          s.numMemBit + count_verilog_switch_box_conf_bits_sb_info bitCost sides) := by
  constructor
  · intro bitCost rsvCost tech sb s h
    have hcond := (emit_block_unique_mem_bit bitCost tech sb.sides h s).trans
      (congrArg (HAdd.hAdd s.numMemBit) (count_conf_bits_rrgsb_eq_sum bitCost sb).symm)
    simp only [dump_verilog_routing_switch_box_unique_subckt]
    rw [if_pos hcond]
    exact ⟨_, rfl, hcond⟩
  · intro bitCost rsvCost tech sides mir s h
    have hcond := (emit_block_sb_mem_bit bitCost tech sides h s).trans
      (congrArg (HAdd.hAdd s.numMemBit)
        (count_conf_bits_sb_info_eq_sum bitCost sides).symm)
    simp only [dump_verilog_routing_switch_box_subckt, Bool.false_eq_true, if_false]
    rw [if_pos hcond]
    exact ⟨_, rfl, hcond⟩

/-- Witness for C10 at a concrete block (one OUT_PORT node with two
drivers): both emission functions return successfully with the counter
advanced by the counted bits. -/
theorem switch_box_emission_consumes_counted_bits_witness :
    (∃ p, dump_verilog_routing_switch_box_unique_subckt (fun _ n => n) (fun _ _ => 0)
        DesignTech.cmos ⟨[[⟨2, 0, 0, PortDir.outPort, false, false, false⟩]]⟩ ⟨0, 0, 0⟩ =
        Except.ok p ∧
      p.1.numMemBit = (0 : Nat).add (count_verilog_switch_box_conf_bits (fun _ n => n)
        ⟨[[⟨2, 0, 0, PortDir.outPort, false, false, false⟩]]⟩)) ∧
    (∃ p, dump_verilog_routing_switch_box_subckt (fun _ n => n) (fun _ _ => 0)
        DesignTech.cmos false ⟨[[⟨2, 0, 0, PortDir.outPort, false, false, false⟩]], none⟩
        ⟨0, 0, 0⟩ = Except.ok p ∧
      p.1.numMemBit = (0 : Nat).add (count_verilog_switch_box_conf_bits_sb_info
        (fun _ n => n) [[⟨2, 0, 0, PortDir.outPort, false, false, false⟩]])) := by
  have h := switch_box_emission_consumes_counted_bits
  exact ⟨h.1 (fun _ n => n) (fun _ _ => 0) DesignTech.cmos
      ⟨[[⟨2, 0, 0, PortDir.outPort, false, false, false⟩]]⟩ ⟨0, 0, 0⟩ (by decide),
    h.2 (fun _ n => n) (fun _ _ => 0) DesignTech.cmos
      [[⟨2, 0, 0, PortDir.outPort, false, false, false⟩]] none ⟨0, 0, 0⟩ (by decide)⟩

/-- Claim C2: for a mirrored `t_sb` block under the compact hierarchy, the
bit count of a structurally identical mirror equals the block's own count
and the dump returns successfully, advancing the counter by exactly that
count; while any mismatch between the two counts makes the dump fail with
the fatal assertion instead of being silently accepted. -/
theorem mirror_conf_bits_consistency (bitCost rsvCost : Nat → Nat → Nat)
    (tech : DesignTech) (sides mirror : List (List ChanNode)) (s : SramOrgzInfo) :
    (mirror = sides →
      count_verilog_switch_box_conf_bits_sb_info bitCost mirror =
        count_verilog_switch_box_conf_bits_sb_info bitCost sides ∧
      ∃ p, dump_verilog_routing_switch_box_subckt bitCost rsvCost tech true
          ⟨sides, some mirror⟩ s = Except.ok p ∧
        p.1.numMemBit = s.numMemBit +
          count_verilog_switch_box_conf_bits_sb_info bitCost sides) ∧
    (count_verilog_switch_box_conf_bits_sb_info bitCost mirror ≠
        count_verilog_switch_box_conf_bits_sb_info bitCost sides →
      dump_verilog_routing_switch_box_subckt bitCost rsvCost tech true
        ⟨sides, some mirror⟩ s = Except.error ()) := by
  constructor
  · intro hms
    subst hms
    refine ⟨rfl, ?_⟩
    simp only [dump_verilog_routing_switch_box_subckt, eq_self_iff_true, if_true]
    exact ⟨_, rfl, rfl⟩
  · intro hne
    simp only [dump_verilog_routing_switch_box_subckt, eq_self_iff_true, if_true]
    rw [if_neg hne]

/-- Witness for C2 at a concrete mirrored block: the mirror's count matches
and the dump succeeds. -/
theorem mirror_conf_bits_consistency_witness :
    count_verilog_switch_box_conf_bits_sb_info (fun _ n => n)
        [[⟨2, 0, 0, PortDir.outPort, false, false, false⟩]] =
      count_verilog_switch_box_conf_bits_sb_info (fun _ n => n)
        [[⟨2, 0, 0, PortDir.outPort, false, false, false⟩]] ∧
    ∃ p, dump_verilog_routing_switch_box_subckt (fun _ n => n) (fun _ _ => 0)
        DesignTech.cmos true
        ⟨[[⟨2, 0, 0, PortDir.outPort, false, false, false⟩]],
          some [[⟨2, 0, 0, PortDir.outPort, false, false, false⟩]]⟩ ⟨7, 0, 0⟩ =
        Except.ok p ∧
      p.1.numMemBit = 7 + count_verilog_switch_box_conf_bits_sb_info (fun _ n => n)
        [[⟨2, 0, 0, PortDir.outPort, false, false, false⟩]] :=
  (mirror_conf_bits_consistency (fun _ n => n) (fun _ _ => 0) DesignTech.cmos
    [[⟨2, 0, 0, PortDir.outPort, false, false, false⟩]]
    [[⟨2, 0, 0, PortDir.outPort, false, false, false⟩]] ⟨7, 0, 0⟩).1 rfl

/-! ## Allocation-scan lemmas for the per-instance pass -/

theorem update_boxes_final_num (bc rc : Nat → Nat → Nat) :
    ∀ (l : List RRGSB) (s : SramOrgzInfo),
      (update_routing_switch_boxes bc rc s l).1.numMemBit =
        s.numMemBit + (l.map (count_verilog_switch_box_conf_bits bc)).sum := by
  intro l
  induction l with
  | nil => intro s; simp [update_routing_switch_boxes]
  | cons sb l ih =>
    intro s
    simp only [update_routing_switch_boxes, update_routing_switch_box_conf_bits,
      List.map_cons, List.sum_cons]
    rw [ih]
    simp only []
    omega

theorem update_boxes_records_lsb_ge (bc rc : Nat → Nat → Nat) :
    ∀ (l : List RRGSB) (s : SramOrgzInfo) (r : SBConfRecord),
      r ∈ (update_routing_switch_boxes bc rc s l).2 → s.numMemBit ≤ r.confBitsLsb := by
  intro l
  induction l with
  | nil => intro s r hr; simp [update_routing_switch_boxes] at hr
  | cons sb l ih =>
    intro s r hr
    simp only [update_routing_switch_boxes, update_routing_switch_box_conf_bits] at hr
    rcases List.mem_cons.mp hr with h | h
    · subst h
      exact Nat.le_refl _
    · have h2 := ih _ r h
      have h3 : s.numMemBit + count_verilog_switch_box_conf_bits bc sb ≤
          r.confBitsLsb := h2
      omega

theorem update_boxes_pairwise (bc rc : Nat → Nat → Nat) :
    ∀ (l : List RRGSB) (s : SramOrgzInfo),
      ((update_routing_switch_boxes bc rc s l).2).Pairwise
        (fun r1 r2 => r1.confBitsMsb < (r2.confBitsLsb : Int)) := by
  intro l
  induction l with
  | nil => intro s; simp [update_routing_switch_boxes]
  | cons sb l ih =>
    intro s
    simp only [update_routing_switch_boxes, update_routing_switch_box_conf_bits]
    refine List.Pairwise.cons ?_ (ih _)
    intro r hr
    have h2 := update_boxes_records_lsb_ge bc rc l _ r hr
    have h3 : s.numMemBit + count_verilog_switch_box_conf_bits bc sb ≤
        r.confBitsLsb := h2
    show (s.numMemBit : Int) + (count_verilog_switch_box_conf_bits bc sb : Int) - 1 <
      (r.confBitsLsb : Int)
    omega

theorem update_boxes_cover (bc rc : Nat → Nat → Nat) :
    ∀ (l : List RRGSB) (s : SramOrgzInfo) (a : Int),
      (∃ r ∈ (update_routing_switch_boxes bc rc s l).2,
        (r.confBitsLsb : Int) ≤ a ∧ a ≤ r.confBitsMsb) ↔
      ((s.numMemBit : Int) ≤ a ∧
        a < ((update_routing_switch_boxes bc rc s l).1.numMemBit : Int)) := by
  intro l
  induction l with
  | nil =>
    intro s a
    simp only [update_routing_switch_boxes]
    simp
  | cons sb l ih =>
    intro s a
    simp only [update_routing_switch_boxes, update_routing_switch_box_conf_bits]
    have hfin : (update_routing_switch_boxes bc rc
        ⟨s.numMemBit + count_verilog_switch_box_conf_bits bc sb,
          s.numBl + count_verilog_switch_box_conf_bits bc sb,
          s.numWl + count_verilog_switch_box_conf_bits bc sb⟩ l).1.numMemBit =
        (s.numMemBit + count_verilog_switch_box_conf_bits bc sb) +
          (l.map (count_verilog_switch_box_conf_bits bc)).sum :=
      update_boxes_final_num bc rc l _
    constructor
    · rintro ⟨r, hr, hlo, hhi⟩
      rcases List.mem_cons.mp hr with h | h
      · subst h
        have hlo2 : (s.numMemBit : Int) ≤ a := hlo
        have hhi2 : a ≤ (s.numMemBit : Int) +
            (count_verilog_switch_box_conf_bits bc sb : Int) - 1 := hhi
        omega
      · have h2 := (ih ⟨s.numMemBit + count_verilog_switch_box_conf_bits bc sb,
          s.numBl + count_verilog_switch_box_conf_bits bc sb,
          s.numWl + count_verilog_switch_box_conf_bits bc sb⟩ a).mp ⟨r, h, hlo, hhi⟩
        have h3 : ((s.numMemBit + count_verilog_switch_box_conf_bits bc sb : Nat) : Int) ≤ a
          := h2.1
        have h4 := h2.2
        omega
    · rintro ⟨h1, h2⟩
      by_cases hcase : a ≤ (s.numMemBit : Int) +
          (count_verilog_switch_box_conf_bits bc sb : Int) - 1
      · refine ⟨_, List.mem_cons_self _ _, ?_, ?_⟩
        · exact h1
        · exact hcase
      · have hge : ((s.numMemBit + count_verilog_switch_box_conf_bits bc sb : Nat) : Int)
            ≤ a := by omega
        rcases (ih ⟨s.numMemBit + count_verilog_switch_box_conf_bits bc sb,
            s.numBl + count_verilog_switch_box_conf_bits bc sb,
            s.numWl + count_verilog_switch_box_conf_bits bc sb⟩ a).mpr ⟨hge, h2⟩
          with ⟨r, hr, hlo, hhi⟩
        exact ⟨r, List.mem_cons_of_mem _ hr, hlo, hhi⟩

/-- Claim C1 (amended): allocating a block when the memory-bit counter holds
`T` and the block counts `N` bits records, on the compact (`RRGSB`) path, the
inclusive range `[T, T+N-1]`, and, on the `t_sb` path, `conf_bits_lsb = T`
together with the exclusive upper bound `conf_bits_msb = T + N`; in both
paths the counter is advanced to exactly `T + N` (bit-line and word-line
counters likewise on the compact path).  Consequently, over a device scan
starting from a zero counter, the inclusive `[lsb, msb]` ranges recorded by
the per-instance pass are pairwise disjoint in scan order and their union is
exactly the contiguous prefix `[0, total)` of the address space. -/
theorem conf_bit_allocation_ranges :
    (∀ (bc rc : Nat → Nat → Nat) (s : SramOrgzInfo) (sb : RRGSB),
      (update_routing_switch_box_conf_bits bc rc s sb).2.confBitsLsb = s.numMemBit ∧
      (update_routing_switch_box_conf_bits bc rc s sb).2.confBitsMsb =
        (s.numMemBit : Int) + (count_verilog_switch_box_conf_bits bc sb : Int) - 1 ∧
      (update_routing_switch_box_conf_bits bc rc s sb).1.numMemBit =
        s.numMemBit + count_verilog_switch_box_conf_bits bc sb ∧
      (update_routing_switch_box_conf_bits bc rc s sb).1.numBl =
        s.numBl + count_verilog_switch_box_conf_bits bc sb ∧
      (update_routing_switch_box_conf_bits bc rc s sb).1.numWl =
        s.numWl + count_verilog_switch_box_conf_bits bc sb) ∧
    (∀ (bc rc : Nat → Nat → Nat) (tech : DesignTech) (compact : Bool)
        (sides : List (List ChanNode)) (mir : Option (List (List ChanNode)))
        (s : SramOrgzInfo) (p : SramOrgzInfo × SBConfRecord),
      dump_verilog_routing_switch_box_subckt bc rc tech compact ⟨sides, mir⟩ s =
          Except.ok p →
      p.2.confBitsLsb = s.numMemBit ∧
      p.2.confBitsMsb =
        ((s.numMemBit + count_verilog_switch_box_conf_bits_sb_info bc sides : Nat) : Int) ∧
      p.1.numMemBit = s.numMemBit + count_verilog_switch_box_conf_bits_sb_info bc sides) ∧
    (∀ (bc rc : Nat → Nat → Nat) (sbs : List RRGSB) (s0 : SramOrgzInfo),
      s0.numMemBit = 0 →
      ((update_routing_switch_boxes bc rc s0 sbs).2).Pairwise
        (fun r1 r2 => r1.confBitsMsb < (r2.confBitsLsb : Int)) ∧
      (∀ a : Int,
        (∃ r ∈ (update_routing_switch_boxes bc rc s0 sbs).2,
          (r.confBitsLsb : Int) ≤ a ∧ a ≤ r.confBitsMsb) ↔
        (0 ≤ a ∧ a < ((update_routing_switch_boxes bc rc s0 sbs).1.numMemBit : Int)))) := by
  refine ⟨fun bc rc s sb => ⟨rfl, rfl, rfl, rfl, rfl⟩, ?_, ?_⟩
  · intro bc rc tech compact sides mir s p heq
    cases compact
    · simp only [dump_verilog_routing_switch_box_subckt, Bool.false_eq_true,
        if_false] at heq
      by_cases hc : ((sides.foldl
          (fun st ts =>
            ts.foldl
              (fun st2 t =>
                match t.dir with
                | PortDir.outPort => (dump_verilog_switch_box_interc bc tech t st2).2
                | PortDir.inPort => st2) st) s)).numMemBit =
          s.numMemBit + count_verilog_switch_box_conf_bits_sb_info bc sides
      · rw [if_pos hc] at heq
        injection heq with h
        subst h
        exact ⟨rfl, rfl, hc⟩
      · rw [if_neg hc] at heq
        cases heq
    · cases mir with
      | none =>
        simp only [dump_verilog_routing_switch_box_subckt, eq_self_iff_true,
          if_true] at heq
        by_cases hc : ((sides.foldl
            (fun st ts =>
              ts.foldl
                (fun st2 t =>
                  match t.dir with
                  | PortDir.outPort => (dump_verilog_switch_box_interc bc tech t st2).2
                  | PortDir.inPort => st2) st) s)).numMemBit =
            s.numMemBit + count_verilog_switch_box_conf_bits_sb_info bc sides
        · rw [if_pos hc] at heq
          injection heq with h
          subst h
          exact ⟨rfl, rfl, hc⟩
        · rw [if_neg hc] at heq
          cases heq
      | some m =>
        simp only [dump_verilog_routing_switch_box_subckt, eq_self_iff_true,
          if_true] at heq
        by_cases hc : count_verilog_switch_box_conf_bits_sb_info bc m =
            count_verilog_switch_box_conf_bits_sb_info bc sides
        · rw [if_pos hc] at heq
          injection heq with h
          subst h
          exact ⟨rfl, rfl, rfl⟩
        · rw [if_neg hc] at heq
          cases heq
  · intro bc rc sbs s0 hz
    refine ⟨update_boxes_pairwise bc rc sbs s0, ?_⟩
    intro a
    have h := update_boxes_cover bc rc sbs s0 a
    rw [hz] at h
    simpa using h

/-- Witness for C1: the `t_sb` implication applied at a concrete block with
two drivers (counter advanced from 0 to 2), and the device-scan part applied
to a two-block scan from a zero counter, with the coverage equivalence
instantiated at address 1. -/
theorem conf_bit_allocation_ranges_witness :
    ((⟨0, 0, (2 : Int)⟩ : SBConfRecord).confBitsLsb = 0 ∧
      (⟨0, 0, (2 : Int)⟩ : SBConfRecord).confBitsMsb =
        ((0 + count_verilog_switch_box_conf_bits_sb_info (fun _ n => n)
          [[⟨2, 0, 0, PortDir.outPort, false, false, false⟩]] : Nat) : Int) ∧
      (⟨2, 0, 0⟩ : SramOrgzInfo).numMemBit =
        0 + count_verilog_switch_box_conf_bits_sb_info (fun _ n => n)
          [[⟨2, 0, 0, PortDir.outPort, false, false, false⟩]]) ∧
    (((update_routing_switch_boxes (fun _ n => n) (fun _ _ => 0) ⟨0, 0, 0⟩
        [⟨[[⟨2, 0, 0, PortDir.outPort, false, false, false⟩]]⟩,
          ⟨[[⟨3, 0, 0, PortDir.outPort, false, false, false⟩]]⟩]).2).Pairwise
        (fun r1 r2 => r1.confBitsMsb < (r2.confBitsLsb : Int)) ∧
      ((∃ r ∈ (update_routing_switch_boxes (fun _ n => n) (fun _ _ => 0) ⟨0, 0, 0⟩
          [⟨[[⟨2, 0, 0, PortDir.outPort, false, false, false⟩]]⟩,
            ⟨[[⟨3, 0, 0, PortDir.outPort, false, false, false⟩]]⟩]).2,
          (r.confBitsLsb : Int) ≤ 1 ∧ (1 : Int) ≤ r.confBitsMsb) ↔
        ((0 : Int) ≤ 1 ∧ (1 : Int) <
          ((update_routing_switch_boxes (fun _ n => n) (fun _ _ => 0) ⟨0, 0, 0⟩
            [⟨[[⟨2, 0, 0, PortDir.outPort, false, false, false⟩]]⟩,
              ⟨[[⟨3, 0, 0, PortDir.outPort, false, false, false⟩]]⟩]).1.numMemBit : Int)))) := by
  have h := conf_bit_allocation_ranges
  refine ⟨h.2.1 (fun _ n => n) (fun _ _ => 0) DesignTech.cmos false
      [[⟨2, 0, 0, PortDir.outPort, false, false, false⟩]] none ⟨0, 0, 0⟩
      (⟨2, 0, 0⟩, ⟨0, 0, (2 : Int)⟩) rfl, ?_⟩
  have h2 := h.2.2 (fun _ n => n) (fun _ _ => 0)
    [⟨[[⟨2, 0, 0, PortDir.outPort, false, false, false⟩]]⟩,
      ⟨[[⟨3, 0, 0, PortDir.outPort, false, false, false⟩]]⟩] ⟨0, 0, 0⟩ rfl
  exact ⟨h2.1, h2.2 1⟩

/-- Counterexample to C1 as stated: on the `t_sb` path the recorded
`conf_bits_msb` field is `T + N` (an exclusive bound, source line 3000), not
`T + N - 1`: a block with `N = 2` counted bits allocated at `T = 0` records
`msb = 2`. -/
theorem conf_bit_allocation_ranges_counterexample :
    dump_verilog_routing_switch_box_subckt (fun _ n => n) (fun _ _ => 0)
        DesignTech.cmos false ⟨[[⟨2, 0, 0, PortDir.outPort, false, false, false⟩]], none⟩
        ⟨0, 0, 0⟩ = Except.ok (⟨2, 0, 0⟩, ⟨0, 0, (2 : Int)⟩) ∧
    ¬ ((⟨0, 0, (2 : Int)⟩ : SBConfRecord).confBitsMsb =
      (0 : Int) + (count_verilog_switch_box_conf_bits_sb_info (fun _ n => n)
        [[⟨2, 0, 0, PortDir.outPort, false, false, false⟩]] : Int) - 1) := by
  refine ⟨rfl, by decide⟩

/-- Claim C8: in the compact-routing flow, sizing and emitting the
unique-shape netlists has no net effect on the configuration counter: when
the flow succeeds, the state at the start of the per-instance allocation
pass equals the snapshotted initial state bit-for-bit, and the final state
and records equal those of running the per-instance pass directly on the
initial state, independently of the unique modules emitted in between. -/
theorem compact_flow_counter_restored (bc rc : Nat → Nat → Nat) (tech : DesignTech)
    (uniques scan : List RRGSB) (s0 : SramOrgzInfo)
    (out : SramOrgzInfo × SramOrgzInfo × List SBConfRecord) :
    print_verilog_routing_switch_boxes_compact bc rc tech uniques scan s0 =
        Except.ok out →
    out.1 = s0 ∧
    out.2.1 = (update_routing_switch_boxes bc rc s0 scan).1 ∧
    out.2.2 = (update_routing_switch_boxes bc rc s0 scan).2 := by
  intro heq
  simp only [print_verilog_routing_switch_boxes_compact, snapshot_sram_orgz_info] at heq
  cases hfold : uniques.foldlM
      (fun st u =>
        (dump_verilog_routing_switch_box_unique_subckt bc rc tech u st).map Prod.fst)
      s0 with
  | error e =>
    rw [hfold] at heq
    cases heq
  | ok v =>
    rw [hfold] at heq
    injection heq with h
    subst h
    exact ⟨rfl, rfl, rfl⟩

/-- Witness for C8 at a concrete flow: one unique module (which consumes two
bits during sizing) and a one-block scan; the restored state equals the
initial state and the scan result is as if the unique pass never ran. -/
theorem compact_flow_counter_restored_witness :
    ((⟨0, 0, 0⟩, (update_routing_switch_boxes (fun _ n => n) (fun _ _ => 0) ⟨0, 0, 0⟩
        [⟨[[⟨3, 0, 0, PortDir.outPort, false, false, false⟩]]⟩]).1,
      (update_routing_switch_boxes (fun _ n => n) (fun _ _ => 0) ⟨0, 0, 0⟩
        [⟨[[⟨3, 0, 0, PortDir.outPort, false, false, false⟩]]⟩]).2) :
      SramOrgzInfo × SramOrgzInfo × List SBConfRecord).1 = ⟨0, 0, 0⟩ := by
  have h := compact_flow_counter_restored (fun _ n => n) (fun _ _ => 0) DesignTech.cmos
    [⟨[[⟨2, 0, 0, PortDir.outPort, false, false, false⟩]]⟩]
    [⟨[[⟨3, 0, 0, PortDir.outPort, false, false, false⟩]]⟩] ⟨0, 0, 0⟩
    (⟨0, 0, 0⟩, (update_routing_switch_boxes (fun _ n => n) (fun _ _ => 0) ⟨0, 0, 0⟩
        [⟨[[⟨3, 0, 0, PortDir.outPort, false, false, false⟩]]⟩]).1,
      (update_routing_switch_boxes (fun _ n => n) (fun _ _ => 0) ⟨0, 0, 0⟩
        [⟨[[⟨3, 0, 0, PortDir.outPort, false, false, false⟩]]⟩]).2) rfl
  exact h.1

end OpenFPGA
